import Mathlib

/-!
Verification development for the Stile configuration-resolution engine
(`stile/data_handler.py`, class `ConfigDataHandler`).

The Python code under study is Python 2: `dict.keys()` returns a list
snapshot, strings do not implement `__iter__` (so `hasattr(x, '__iter__')`
is false for strings), and list-comprehension variables leak into function
scope.  The shallow embedding below models configuration values as the
inductive type `CVal` and Python dicts as insertion-ordered association
lists, which determinizes Python-2's arbitrary-but-fixed hash ordering.
Failures (`raise` statements) are modelled with `Except Err`.
-/

namespace Stile

/-- A configuration value: a Python bool, string, list, or dict as can occur
in a parsed YAML/JSON payload handled by `ConfigDataHandler`. -/
inductive CVal : Type where
  | b : Bool → CVal
  | s : String → CVal
  | list : List CVal → CVal
  | dict : List (String × CVal) → CVal

/-- A Python dict with string keys, modelled as an insertion-ordered
association list (first binding of a key is the authoritative one). -/
abbrev Dict := List (String × CVal)

/-- The taxonomy of failures raised by the engine (spec §7), plus the raw
Python failure modes that the code can actually hit. -/
inductive Err : Type where
  | incompleteSpecification
  | duplicateSpecification
  | ambiguousShape
  | groupConflict
  | unprocessedKeys
  | valueError
  | typeError
  | keyError
  | unboundLocalError
  | runtimeError
  | fuelExhausted
deriving DecidableEq

/-- `d[k]` lookup: first binding of `k` in the association list. -/
def dlookup (d : Dict) (k : String) : Option CVal :=
  match d with
  | [] => none
  | (k', v) :: rest => if k' = k then some v else dlookup rest k

/-- `k in d` membership test. -/
def dmem (d : Dict) (k : String) : Bool :=
  (dlookup d k).isSome

/-- `d[k] = v`: replace the binding in place if present, else append
(Python dicts preserve first-insertion position on overwrite). -/
def dset (d : Dict) (k : String) (v : CVal) : Dict :=
  match d with
  | [] => [(k, v)]
  | (k', v') :: rest => if k' = k then (k', v) :: rest else (k', v') :: dset rest k v

/-- `d.pop(k)` with no default: the value and the remaining dict, or `none`
(Python raises `KeyError`) when the key is absent. -/
def dpop (d : Dict) (k : String) : Option (CVal × Dict) :=
  match d with
  | [] => none
  | (k', v) :: rest =>
      if k' = k then some (v, rest)
      else match dpop rest k with
           | some (v', rest') => some (v', (k', v) :: rest')
           | none => none

/-- Remove the binding of `k` if present (`del d[k]` / `d.pop(k, None)`). -/
def derase (d : Dict) (k : String) : Dict :=
  match d with
  | [] => []
  | (k', v) :: rest => if k' = k then rest else (k', v) :: derase rest k

/-- `d1.update(d2)`: bindings of `d2` override those of `d1`, new keys are
appended in `d2`'s order. -/
def dupdate (d1 d2 : Dict) : Dict :=
  match d2 with
  | [] => d1
  | (k, v) :: rest => dupdate (dset d1 k v) rest

/-- The keys of a dict in order (`d.keys()`, a Python-2 list snapshot). -/
def dkeys (d : Dict) : List String := d.map Prod.fst

/-- Python-2 `hasattr(x, '__iter__')`: true for lists and dicts, false for
strings and bools. -/
def isIterable : CVal → Bool
  | .list _ => true
  | .dict _ => true
  | _ => false

/-- Python truthiness of a configuration value. -/
def truthy : CVal → Bool
  | .b bv => bv
  | .s sv => !sv.isEmpty
  | .list l => !l.isEmpty
  | .dict d => !d.isEmpty

/-- `str(v)` for the values that can reach `stile_utils.Format`: strings
print as themselves, bools as `True`/`False`; containers get a simple
marker rendering (only exotic configurations put containers in a format
axis, and no claim depends on their exact string). -/
def pyStr : CVal → String
  | .b true => "True"
  | .b false => "False"
  | .s sv => sv
  | .list _ => "[list]"
  | .dict _ => "[dict]"

/-- The four classification axes, in the fixed priority order used by
`ConfigDataHandler._recurseDict`. -/
def format_keys : List String := ["epoch", "extent", "data_format", "object_type"]

/-- Modelled from the spec: `stile_utils.epochs`, the enumerated epoch
domain — "whether this is a single/coadd ... catalog, or a multiepoch time
series" (the module `stile_utils.py` is not under `src/`). -/
def epochs : List String := ["single", "coadd", "multiepoch"]

/-- Modelled from the spec: `stile_utils.extents` — `"CCD", "field",
"patch" or "tract"`. -/
def extents : List String := ["CCD", "field", "patch", "tract"]

/-- Modelled from the spec: `stile_utils.data_formats` — `"image" or
"catalog"`. -/
def data_formats : List String := ["catalog", "image"]

/-- Modelled from the spec: `stile_utils.object_types`, the enumerated
object-type labels; the spec's grouping examples use `star` and `galaxy`. -/
def object_types : List String := ["galaxy", "star"]

/-- The domain of enumerated values for each axis, in axis priority
order (the `zip` at `data_handler.py:497-499`). -/
def axisDomains : List (String × List String) :=
  [("epoch", epochs), ("extent", extents),
   ("data_format", data_formats), ("object_type", object_types)]

/-- Modelled from the spec: `stile_utils.flatten`, which flattens nested
lists into a flat list; strings, bools and dicts are atoms (the merge stage
at `data_handler.py:650-657` relies on dicts surviving flattening).  The
first argument is fuel bounding the recursion (depth plus length), which
keeps the definition structural; with fuel exhausted the value is kept as
an atom. -/
def flatten : Nat → CVal → List CVal
  | 0, v => [v]
  | _ + 1, .list [] => []
  | n + 1, .list (x :: xs) => flatten n x ++ flatten n (.list xs)
  | _ + 1, v => [v]

/-- Python `==` on configuration values: structural on bools, strings and
lists, *order-insensitive* on dicts (two Python dicts are equal iff they
hold the same key-value pairs).  Fueled to stay structural; exhausted fuel
yields `false`. -/
def pyEq : Nat → CVal → CVal → Bool
  | 0, _, _ => false
  | _ + 1, .b x, .b y => x == y
  | _ + 1, .s x, .s y => x == y
  | _ + 1, .list [], .list [] => true
  | n + 1, .list (x :: xs), .list (y :: ys) => pyEq n x y && pyEq n (.list xs) (.list ys)
  | n + 1, .dict d1, .dict d2 =>
      d1.all (fun kv => match dlookup d2 kv.1 with
                        | some v2 => pyEq n kv.2 v2
                        | none => false) &&
      d2.all (fun kv => dmem d1 kv.1)
  | _, _, _ => false

/-- Modelled from the spec: `stile_utils.Format(...).str`, the canonical
`"epoch-extent-data_format"` string key (documented in the
`DataHandler.listFileTypes` docstring in `data_handler.py`). -/
def formatStr (epoch extent dataFormat : CVal) : String :=
  pyStr epoch ++ "-" ++ pyStr extent ++ "-" ++ pyStr dataFormat

/-- Generic association-list lookup (for the index tables built by the
grouping and merging stages). -/
def alookup {α : Type} : List (String × α) → String → Option α
  | [], _ => none
  | (k', v) :: rest, k => if k' = k then some v else alookup rest k

/-- Generic association-list update-or-append. -/
def aset {α : Type} : List (String × α) → String → α → List (String × α)
  | [], k, v => [(k, v)]
  | (k', v') :: rest, k, v =>
      if k' = k then (k', v) :: rest else (k', v') :: aset rest k v

/-- Association-list lookup keyed by a configuration value (Python dicts
keyed by e.g. an object-type label or a group name); keys are compared
with Python `==` at the given fuel. -/
def clookup {α : Type} (n : Nat) : List (CVal × α) → CVal → Option α
  | [], _ => none
  | (k', v) :: rest, k => if pyEq n k' k then some v else clookup n rest k

/-- Association-list update-or-append keyed by a configuration value. -/
def cset {α : Type} (n : Nat) : List (CVal × α) → CVal → α → List (CVal × α)
  | [], k, v => [(k, v)]
  | (k', v') :: rest, k, v =>
      if pyEq n k' k then (k', v) :: rest else (k', v') :: cset n rest k v

/-- Python hashability of a configuration value used as a dict key: lists
and dicts are unhashable (`TypeError`). -/
def hashable : CVal → Bool
  | .b _ => true
  | .s _ => true
  | _ => false

/-- Error-propagating map over a list (the shape of every `for` loop with
`raise` in `ConfigDataHandler`). -/
def mapE {α β : Type} (f : α → Except Err β) : List α → Except Err (List β)
  | [] => .ok []
  | x :: xs => do
      let y ← f x
      let ys ← mapE f xs
      .ok (y :: ys)

/-! ### `ConfigDataHandler._recurseDict` (data_handler.py:339-528)

The tree normalizer.  One fuel argument makes the recursion through the
untyped configuration tree structural; every theorem quantifies over the
fuel, and concrete runs use an explicit sufficient fuel. -/

/-- The `kwargs.get('epoch')=='multiepoch'` test (data_handler.py:379). -/
def epochIsMulti (kwargs : Dict) : Bool :=
  match dlookup kwargs "epoch" with
  | some (.s e) => e == "multiepoch"
  | _ => false

/-- Python-2 `return_list += r` where `r` is the result of a recursive
`_recurseDict` call: extending a list with a list concatenates, while
extending with a dict (the scalar-leaf return at data_handler.py:466-471)
appends the dict's *keys*. -/
def pyExtend (acc : List CVal) : CVal → List CVal
  | .list l => acc ++ l
  | .dict d => acc ++ (dkeys d).map CVal.s
  | _ => acc  -- `_recurseDict` only ever returns a list or a dict

/-- One element of the all-iterable multiepoch leaf list
(data_handler.py:401-427): dict elements are merged over the inherited
context after duplicate/incompleteness checks, other (iterable) elements
become the `name` of a context copy. -/
def multiLeafItem (req : Bool) (kwargs : Dict) (item : CVal) : Except Err Dict :=
  match item with
  | .dict d =>
      if format_keys.any (fun fk => dmem d fk && dmem kwargs fk) then
        .error .duplicateSpecification   -- line 405: "Duplicate definition of format element"
      else if format_keys.any (fun fk => !dmem d fk && !dmem kwargs fk) && req then
        .error .incompleteSpecification  -- line 411: "Incomplete definition of format"
      else .ok (dupdate kwargs d)
  | _ =>
      -- lines 413-417 and the identical re-check at lines 421-425
      if !format_keys.all (fun fk => dmem kwargs fk) then .error .incompleteSpecification
      else .ok (dset kwargs "name" item)

/-- One element of the non-multiepoch leaf list (data_handler.py:444-460).
The duplicate-definition branch at lines 449-450 interpolates the variable
`item`, which is unbound on this path (it is only assigned in the
multiepoch branch), so Python raises `UnboundLocalError` instead of the
intended `ValueError`. -/
def leafItem (req : Bool) (kwargs : Dict) (file : CVal) : Except Err Dict :=
  match file with
  | .dict d =>
      if format_keys.any (fun fk => dmem d fk && dmem kwargs fk) then
        .error .unboundLocalError        -- lines 449-450: `str(item)` with `item` unbound
      else if format_keys.any (fun fk => !dmem d fk && !dmem kwargs fk) && req then
        .error .incompleteSpecification  -- line 454: "Incomplete definition of format"
      else .ok (dupdate kwargs d)
  | _ =>
      if !format_keys.all (fun fk => dmem kwargs fk) then
        .error .incompleteSpecification  -- line 458
      else .ok (dset kwargs "name" file)

/-- Is the value an acceptable `wildcard` control value
(`PopAndCheckFormat(files, 'wildcard', bool)`)? -/
def isBoolCV : CVal → Bool
  | .b _ => true
  | _ => false

/-- Is the value an acceptable `fields` control value (`(dict, list)`)? -/
def isFieldsCV : CVal → Bool
  | .dict _ => true
  | .list _ => true
  | _ => false

/-- Is the value an acceptable `flag_field` control value
(`(str, list, dict)`)? -/
def isFlagFieldCV : CVal → Bool
  | .s _ => true
  | .list _ => true
  | .dict _ => true
  | _ => false

/-- Modelled from the spec: `stile_utils.PopAndCheckFormat(d, key, types)`
(module not under `src/`), which pops `key` from `d` and raises unless the
value has one of the admissible types.  Only called when `key` is present. -/
def popAndCheck (d : Dict) (k : String) (tyok : CVal → Bool) :
    Except Err (CVal × Dict) :=
  match dpop d k with
  | some (v, d') => if tyok v then .ok (v, d') else .error .valueError
  | none => .error .keyError

/-- Control-key extraction at the top of the dict branch
(data_handler.py:480-493): `group`, `wildcard`, `fields`, `flag_field` are
popped into the inherited context (with `flag_field` accumulating as a
two-element list rather than overriding), and `file_reader` is *read* but
not popped (line 493 uses `files.get`). -/
def extractGroup (st : Dict × Dict) : Except Err (Dict × Dict) :=
  if dmem st.2 "group" then
    match dpop st.2 "group" with
    | some (v, f') => .ok (dset st.1 "group" v, f')
    | none => .error .keyError
  else .ok st

def extractWildcard (st : Dict × Dict) : Except Err (Dict × Dict) :=
  if dmem st.2 "wildcard" then
    match popAndCheck st.2 "wildcard" isBoolCV with
    | .ok (v, f') => .ok (dset st.1 "wildcard" v, f')
    | .error e => .error e
  else .ok st

def extractFields (st : Dict × Dict) : Except Err (Dict × Dict) :=
  if dmem st.2 "fields" then
    match popAndCheck st.2 "fields" isFieldsCV with
    | .ok (v, f') => .ok (dset st.1 "fields" v, f')
    | .error e => .error e
  else .ok st

def extractFlagField (st : Dict × Dict) : Except Err (Dict × Dict) :=
  if dmem st.2 "flag_field" then
    match dlookup st.1 "flag_field" with
    | some old =>
        -- line 488: plain pop, no type check, appended to the inherited value
        match dpop st.2 "flag_field" with
        | some (v, f') => .ok (dset st.1 "flag_field" (.list [old, v]), f')
        | none => .error .keyError
    | none =>
        match popAndCheck st.2 "flag_field" isFlagFieldCV with
        | .ok (v, f') => .ok (dset st.1 "flag_field" v, f')
        | .error e => .error e
  else .ok st

def extractFileReader (st : Dict × Dict) : Except Err (Dict × Dict) :=
  if dmem st.2 "file_reader" then
    match dlookup st.2 "file_reader" with
    | some v => .ok (dset st.1 "file_reader" v, st.2)
    | none => .error .keyError
  else .ok st

def extractControls (kwargs files : Dict) : Except Err (Dict × Dict) :=
  match extractGroup (kwargs, files) with
  | .error e => .error e
  | .ok st1 =>
  match extractWildcard st1 with
  | .error e => .error e
  | .ok st2 =>
  match extractFields st2 with
  | .error e => .error e
  | .ok st3 =>
  match extractFlagField st3 with
  | .error e => .error e
  | .ok st4 => extractFileReader st4

/-- The inner `for key in keys` of one axis round (data_handler.py:504-509):
every key of the stale snapshot is popped and consumed as this axis's
value, and recursion proceeds on the key's value.  A snapshot key already
consumed by an earlier round makes `files.pop(key)` raise `KeyError`. -/
def axisKeyLoop (recur : CVal → Dict → Except Err CVal) (axis : String) :
    List String → Dict → Dict → List CVal → Except Err (Dict × Dict × List CVal)
  | [], files, pk, ret => .ok (files, pk, ret)
  | k :: rest, files, pk, ret =>
      match dpop files k with
      | none => .error .keyError
      | some (v, files') =>
          let pk' := dset pk axis (.s k)
          match recur v pk' with
          | .error e => .error e
          | .ok r => axisKeyLoop recur axis rest files' pk' (pyExtend ret r)

/-- The axis-priority loop (data_handler.py:496-509).  The key snapshot is
taken once, before the loop; a round fires when *any* snapshot key lies in
the axis's enumerated domain (the comment at lines 500-501: "any() so users
have the ability to arbitrarily define eg extents"), re-binding an axis
already in the inherited context is the duplicate-definition error. -/
def axisLoop (recur : CVal → Dict → Except Err CVal) (kwargs : Dict)
    (keysSnap : List String) :
    List (String × List String) → Dict → Dict → List CVal →
    Except Err (Dict × Dict × List CVal)
  | [], files, pk, ret => .ok (files, pk, ret)
  | (axis, domain) :: restAxes, files, pk, ret =>
      if keysSnap.any (fun k => domain.contains k) then
        if dmem kwargs axis then
          .error .duplicateSpecification  -- line 502: "Duplicate definition of %s"
        else
          match axisKeyLoop recur axis keysSnap files pk ret with
          | .error e => .error e
          | .ok (files', pk', ret') =>
              axisLoop recur kwargs keysSnap restAxes files' pk' ret'
      else axisLoop recur kwargs keysSnap restAxes files pk ret

/-- The terminal-descriptor handling of leftover mapping keys
(data_handler.py:511-527). -/
def terminalLeaf (req : Bool) (kwargs pk files : Dict) (ret : List CVal) :
    Except Err (List CVal) :=
  if files.isEmpty then .ok ret
  else if dmem files "name" then
    if format_keys.all (fun fk => dmem files fk || dmem kwargs fk) || req = false then
      if format_keys.any (fun fk => dmem files fk && dmem kwargs fk) then
        .error .duplicateSpecification  -- line 517: "Duplicate format definition"
      else .ok (ret ++ [.dict (dupdate pk files)])
    else .error .incompleteSpecification  -- line 524
  else .error .unprocessedKeys            -- line 527

/-- `ConfigDataHandler._recurseDict` (data_handler.py:339-528): normalize a
nested configuration tree into a flat list of descriptor dicts, threading
the inherited context `kwargs`.  Notable faithful quirks:
* a list node reached with an empty context hits the Python-2
  `file.get('group', default=False)` call, which raises `TypeError`
  (line 375) unless the list is empty;
* a multiepoch list whose elements are all non-iterable reaches
  `pass_kwargs.update(...)` (line 434) with `pass_kwargs` never assigned on
  that path, so Python raises `UnboundLocalError`;
* the `isinstance(files, dict)` arm at lines 382-393 inside the list branch
  is unreachable and is omitted. -/
def recurseDict : Nat → CVal → Bool → Dict → Except Err CVal
  | 0, _, _, _ => .error .fuelExhausted
  | n + 1, files, req, kwargs =>
      match files with
      | .list fs =>
          if kwargs.isEmpty then
            -- lines 373-376
            if fs.isEmpty then .ok (.list []) else .error .typeError
          else if format_keys.any (fun fk => dmem kwargs fk) || req = false then
            if epochIsMulti kwargs then
              -- lines 394-435
              let iter := fs.map isIterable
              if iter.all (· = true) then
                match mapE (multiLeafItem req kwargs) fs with
                | .error e => .error e
                | .ok ds => .ok (.list (ds.map CVal.dict))
              else if iter.any (· = true) then
                .error .ambiguousShape   -- lines 429-432
              else
                .error .unboundLocalError -- line 434: `pass_kwargs` unassigned here
            else
              -- lines 440-461
              match mapE (leafItem req kwargs) fs with
              | .error e => .error e
              | .ok ds => .ok (.list (ds.map CVal.dict))
          else
            .error .incompleteSpecification  -- line 463
      | .dict d =>
          match extractControls kwargs d with
          | .error e => .error e
          | .ok (pk, files1) =>
              match axisLoop (fun v kw => recurseDict n v req kw) kwargs
                  (dkeys files1) axisDomains files1 pk [] with
              | .error e => .error e
              | .ok (files2, pk2, ret) =>
                  match terminalLeaf req kwargs pk2 files2 ret with
                  | .error e => .error e
                  | .ok out => .ok (.list out)
      | other => .ok (.dict (dset kwargs "name" other))

/-! ### `ConfigDataHandler._group` (data_handler.py:573-624)

Count-matched positional grouping.  Phase 1 (lines 582-607) walks the
descriptor list, splitting non-multiepoch descriptors whose `name` is a
list into one descriptor per name, and records for each format string and
object type the indices (into the accumulated `return_list`) of the
descriptors that participate in automatic grouping (`group` absent or
`True`).  Phase 2 (lines 608-624) mints `_stile_group_<c>` names whenever a
format has more than one object type with index lists of equal length.
`stile_utils.EmptyFormatDict` pre-seeds the format dict with empty entries,
which the `if format_dict[key]` guard skips again, so starting from an
empty insertion-ordered table is equivalent. -/

/-- Does a descriptor participate in automatic grouping
(`not 'group' in l or l['group'] is True`, line 589)? -/
def participates (d : Dict) : Bool :=
  match dlookup d "group" with
  | none => true
  | some (.b true) => true
  | some _ => false

/-- The `x == 'multiepoch'` comparison on an axis value. -/
def isMultiV : CVal → Bool
  | .s e => e == "multiepoch"
  | _ => false

/-- Is the value a Python `str`? -/
def isStrCV : CVal → Bool
  | .s _ => true
  | _ => false

/-- Python iteration over a value: lists yield elements, dicts their keys,
strings their characters; bools are not iterable (`TypeError`). -/
def pyIterate : CVal → Except Err (List CVal)
  | .list l => .ok l
  | .dict d => .ok ((dkeys d).map CVal.s)
  | .s sv => .ok (sv.toList.map (fun c => .s (String.singleton c)))
  | .b _ => .error .typeError

/-- The per-format, per-object-type index table built by `_group`
(`format_dict[format_str][object_type] = [indices]`). -/
abbrev FormatDict := List (String × List (CVal × List Nat))

/-- Record one descriptor index under its format string and object type,
creating the nested entries on first use (lines 592-596). -/
def fdRecord (n : Nat) (fd : FormatDict) (fmt : String) (ot : CVal) (idx : Nat) :
    FormatDict :=
  let entry := (alookup fd fmt).getD []
  let inner := (clookup n entry ot).getD []
  aset fd fmt (cset n entry ot (inner ++ [idx]))

/-- The splitting loop of phase 1 (lines 600-605): one deep copy per name,
each appended and recorded. -/
def splitRecord (n : Nat) (d : Dict) (fmt : String) (ot : CVal) :
    List CVal → List Dict → FormatDict → List Dict × FormatDict
  | [], rl, fd => (rl, fd)
  | nm :: rest, rl, fd =>
      splitRecord n d fmt ot rest (rl ++ [dset d "name" nm]) (fdRecord n fd fmt ot rl.length)

/-- Phase 1 of `_group` (lines 582-607). -/
def groupPhase1 (n : Nat) : List CVal → List Dict → FormatDict →
    Except Err (List Dict × FormatDict)
  | [], rl, fd => .ok (rl, fd)
  | l :: rest, rl, fd =>
      if truthy l then
        match l with
        | .dict d =>
            if participates d then
              match dlookup d "epoch", dlookup d "extent", dlookup d "data_format" with
              | some e, some x, some df =>
                  let fmt := formatStr e x df
                  match dlookup d "object_type" with
                  | none => .error .keyError
                  | some ot =>
                      if !hashable ot then .error .typeError
                      else
                        match dlookup d "name" with
                        | none => .error .keyError
                        | some nm =>
                            if isStrCV nm || isMultiV e then
                              groupPhase1 n rest (rl ++ [d]) (fdRecord n fd fmt ot rl.length)
                            else
                              match pyIterate nm with
                              | .error err => .error err
                              | .ok nms =>
                                  let (rl', fd') := splitRecord n d fmt ot nms rl fd
                                  groupPhase1 n rest rl' fd'
              | _, _, _ => .error .keyError  -- `l['epoch']` etc. raise on a missing axis
            else groupPhase1 n rest (rl ++ [d]) fd
        | _ => .error .typeError  -- lines 586-588
      else groupPhase1 n rest rl fd

/-- The synthesized group name `'_stile_group_' + str(c)` (line 618). -/
def groupNameStr (c : Nat) : String := "_stile_group_" ++ toString c

/-- `return_list[i]['group'] = name(c)`; recorded indices are always in
range, so the out-of-range case keeps the list unchanged. -/
def setGroupAt (rl : List Dict) (i : Nat) (c : Nat) : List Dict :=
  match rl[i]? with
  | some d => rl.set i (dset d "group" (.s (groupNameStr c)))
  | none => rl

/-- The inner index loop of phase 2 (lines 617-619): the j-th recorded
index of an object type receives group number `curr + j`. -/
def assignIdxs : List Nat → List Dict → Nat → List Dict × Nat
  | [], rl, curr => (rl, curr)
  | i :: rest, rl, curr => assignIdxs rest (setGroupAt rl i curr) (curr + 1)

/-- The object-type loop of phase 2 (lines 615-619): the counter restarts
at `base` for every object type, so positionally matched descriptors of
different object types receive the same group name. -/
def assignEntry : List (CVal × List Nat) → List Dict → Nat → Nat → List Dict × Nat
  | [], rl, _, lastCurr => (rl, lastCurr)
  | (_, idxs) :: rest, rl, base, _ =>
      let (rl', curr) := assignIdxs idxs rl base
      assignEntry rest rl' base curr

/-- `len(set(lens)) == 1` for a nonempty list of lengths. -/
def allEqNat : List Nat → Bool
  | [] => true
  | x :: xs => xs.all (· == x)

/-- Phase 2 of `_group` (lines 608-624), including the
`curr_n - n == len_files_list[0]` sanity `RuntimeError` (lines 620-622). -/
def groupPhase2 : FormatDict → List Dict → Nat → Except Err (List Dict × Nat)
  | [], rl, nn => .ok (rl, nn)
  | (_, ents) :: rest, rl, nn =>
      if ents.isEmpty then groupPhase2 rest rl nn
      else
        let lens := ents.map (fun e => e.2.length)
        if 1 < lens.length then
          if allEqNat lens then
            let (rl', curr) := assignEntry ents rl nn nn
            if curr - nn == lens.headD 0 then groupPhase2 rest rl' curr
            else .error .runtimeError
          else groupPhase2 rest rl nn
        else groupPhase2 rest rl nn

/-- `ConfigDataHandler._group` (data_handler.py:573-624). -/
def groupFiles (n : Nat) (l : List CVal) (startN : Nat) :
    Except Err (List Dict × Nat) :=
  match groupPhase1 n l [] [] with
  | .error e => .error e
  | .ok (rl, fd) => groupPhase2 fd rl startN

/-! ### `ConfigDataHandler._formatFileList` (data_handler.py:626-658) -/

/-- The file table `format_string → object_type → list of descriptors`. -/
abbrev Table := List (String × List (CVal × List Dict))

/-- Append a descriptor under `tbl[fmt][ot]`, creating entries on first
use (lines 642-645). -/
def tAppend (n : Nat) (tbl : Table) (fmt : String) (ot : CVal) (d : Dict) : Table :=
  let entry := (alookup tbl fmt).getD []
  let inner := (clookup n entry ot).getD []
  aset tbl fmt (cset n entry ot (inner ++ [d]))

/-- The per-name split of the non-multiepoch arm (lines 650-657): dict
names are merged into a copy of the descriptor, other names become its
`name`. -/
def formatNamesLoop (n : Nat) (item : Dict) (fmt : String) (ot : CVal) :
    List CVal → Table → Table
  | [], tbl => tbl
  | nm :: rest, tbl =>
      let d := match nm with
               | .dict nd => dupdate item nd
               | _ => dset item "name" nm
      formatNamesLoop n item fmt ot rest (tAppend n tbl fmt ot d)

/-- `ConfigDataHandler._formatFileList` (data_handler.py:626-658): pop the
four classification axes off each descriptor and file it under its format
string and object type; multiepoch descriptors are filed whole, otherwise
the flattened `name` list is re-split into one descriptor per name. -/
def formatFileList (n : Nat) : List Dict → Table → Except Err Table
  | [], tbl => .ok tbl
  | item :: rest, tbl =>
      match dpop item "epoch" with
      | none => .error .keyError
      | some (e, item1) =>
      match dpop item1 "extent" with
      | none => .error .keyError
      | some (x, item2) =>
      match dpop item2 "data_format" with
      | none => .error .keyError
      | some (df, item3) =>
      let fmt := formatStr e x df
      match dpop item3 "object_type" with
      | none => .error .keyError
      | some (ot, item4) =>
      if !hashable ot then .error .typeError
      else if isMultiV e then formatFileList n rest (tAppend n tbl fmt ot item4)
      else
        match dpop item4 "name" with
        | none => .error .keyError
        | some (nmv, item5) =>
            formatFileList n rest (formatNamesLoop n item5 fmt ot (flatten n nmv) tbl)

/-! ### `ConfigDataHandler._expandWildcard` (data_handler.py:530-571)

Wildcard expansion.  The filesystem `glob.glob` is the abstract parameter
`g : String → List String`, returning matches in the platform's directory
order (`glob` does not sort). -/

/-- Lexicographic comparison of character lists by code point, Python's
string ordering. -/
def charListLe : List Char → List Char → Bool
  | [], _ => true
  | _ :: _, [] => false
  | a :: as, b :: bs =>
      if a.toNat < b.toNat then true
      else if b.toNat < a.toNat then false
      else charListLe as bs

/-- Python `a <= b` on strings. -/
def strLeB (a b : String) : Bool := charListLe a.toList b.toList

/-- Insert into a sorted list of strings. -/
def insertSorted (s : String) : List String → List String
  | [] => [s]
  | x :: xs => if strLeB s x then s :: x :: xs else x :: insertSorted s xs

/-- Python `sorted` on a list of strings (stable insertion sort). -/
def sortStrs : List String → List String
  | [] => []
  | x :: xs => insertSorted x (sortStrs xs)

/-- `ConfigDataHandler._expandWildcardHelper` (data_handler.py:538-571).
The dict case reads `name` (raising `KeyError` if absent), pops `wildcard`
(truthiness decides; the pop itself is modelled at the call site) and reads
the `epoch`; multiepoch expansion sorts each glob's matches and keeps
file-set structure, non-multiepoch expansion flattens and does *not* sort
(line 571 is a bare `glob.glob`). -/
def expandWHelper (g : String → List String) :
    Nat → CVal → Bool → Bool → Except Err CVal
  | 0, _, _, _ => .error .fuelExhausted
  | n + 1, item, wildcard0, isMulti0 =>
      let pieces : Except Err (CVal × Bool × Bool) :=
        match item with
        | .dict d =>
            match dlookup d "name" with
            | none => .error .keyError
            | some nm =>
                let w := match dlookup d "wildcard" with
                         | some wv => truthy wv
                         | none => wildcard0
                let im := match dlookup d "epoch" with
                          | some e => isMultiV e
                          | none => isMulti0
                .ok (nm, w, im)
        | _ => .ok (item, wildcard0, isMulti0)
      match pieces with
      | .error err => .error err
      | .ok (names, wildcard, isMulti) =>
          if !wildcard then
            -- lines 548-556
            if isMulti then
              match names with
              | .list l => .ok (.list l)
              | _ => .ok (.list [names])
            else .ok (.list (flatten (n + 1) names))
          else if isMulti then
            -- lines 558-566
            match names with
            | .s p => .ok (.list ((sortStrs (g p)).map CVal.s))
            | .b _ => .error .typeError  -- glob of a non-string
            | _ =>
                match pyIterate names with
                | .error err => .error err
                | .ok elems =>
                    if elems.any isIterable then
                      match mapE (fun nn => expandWHelper g n nn wildcard isMulti) elems with
                      | .error err => .error err
                      | .ok rs => .ok (.list rs)
                    else
                      match mapE (fun nn =>
                          match nn with
                          | .s p => .ok (.list ((sortStrs (g p)).map CVal.s))
                          | _ => .error .typeError) elems with
                      | .error err => .error err
                      | .ok rs => .ok (.list rs)
          else
            -- lines 567-571
            match names with
            | .s p => .ok (.list ((g p).map CVal.s))  -- line 571: unsorted glob
            | .b _ => .error .typeError
            | _ =>
                match pyIterate names with
                | .error err => .error err
                | .ok elems =>
                    match mapE (fun nn => expandWHelper g n nn wildcard isMulti) elems with
                    | .error err => .error err
                    | .ok rs => .ok (.list (flatten (n + 1) (.list rs)))

/-- `ConfigDataHandler._expandWildcard` (data_handler.py:530-536): run the
helper (with default `wildcard=False`, `is_multiepoch=False`) and filter
falsy entries out of the result list. -/
def expandWildcard (g : String → List String) (n : Nat) (item : CVal) :
    Except Err CVal :=
  match item with
  | .list l =>
      match mapE (fun i => expandWHelper g n i false false) l with
      | .error err => .error err
      | .ok rs => .ok (.list (rs.filter truthy))
  | _ =>
      match expandWHelper g n item false false with
      | .error err => .error err
      | .ok (.list rl) => .ok (.list (rl.filter truthy))
      | .ok other => .ok other  -- the helper always returns a list

/-! ### `ConfigDataHandler._parseFileHelper` (data_handler.py:302-337) -/

/-- Top-of-helper handling of a pre-flattened list input (lines 310-319):
every element must be a dict, and `group` defaults to `False`. -/
def descGroupDefault (f : CVal) : Except Err CVal :=
  match f with
  | .dict d => .ok (.dict (if dmem d "group" then d else dset d "group" (.b false)))
  | _ => .error .valueError

/-- The check-and-expand loop (lines 322-333): each item must be a dict
carrying all four classification axes (else the resolution aborts), after
which its `name` is wildcard-expanded in place (popping `wildcard`). -/
def checkExpandLoop (g : String → List String) (n : Nat) :
    List CVal → Except Err (List Dict)
  | [] => .ok []
  | item :: rest =>
      match item with
      | .dict d =>
          if !format_keys.all (fun fk => dmem d fk) then
            .error .incompleteSpecification  -- lines 330-332
          else
            match expandWildcard g n (.dict d) with
            | .error err => .error err
            | .ok nameNew =>
                match checkExpandLoop g n rest with
                | .error err => .error err
                | .ok rest' => .ok (dset (derase d "wildcard") "name" nameNew :: rest')
      | _ => .error .valueError              -- lines 325-328

/-- `ConfigDataHandler._parseFileHelper` (data_handler.py:302-337): resolve
one top-level `file*` entry into a file table plus the updated group-name
counter. -/
def parseFileHelper (g : String → List String) (n : Nat) (files0 : CVal)
    (startN : Nat) : Except Err (Table × Nat) :=
  let itemsE : Except Err (List CVal) :=
    match files0 with
    | .dict _ =>
        match recurseDict n files0 true [] with
        | .error e => .error e
        | .ok (.list l) => .ok l
        | .ok _ => .error .typeError  -- `_recurseDict` returns a list on a dict input
    | .list fs => mapE descGroupDefault fs
    | _ => .error .valueError         -- lines 311-313
  match itemsE with
  | .error e => .error e
  | .ok items =>
  match checkExpandLoop g n items with
  | .error e => .error e
  | .ok ds =>
  match groupFiles n (ds.map CVal.dict) startN with
  | .error e => .error e
  | .ok (rl, n') =>
  match formatFileList n rl [] with
  | .error e => .error e
  | .ok tbl => .ok (tbl, n')

/-! ### `ConfigDataHandler._merge` and `._fixGroupings` (data_handler.py:660-726) -/

/-- Delete a key compared with Python `==` (`del d[k]`). -/
def cdel {α : Type} (n : Nat) : List (CVal × α) → CVal → List (CVal × α)
  | [], _ => []
  | (k, v) :: rest, g => if pyEq n k g then rest else (k, v) :: cdel n rest g

/-- `ConfigDataHandler._merge` (data_handler.py:706-726) applied to two
object-type maps of the file table.  Values here are always descriptor
lists (built by `_formatFileList`), so the shared-key case is list
concatenation; keys only in the second map are appended in its order. -/
def mergeObjMap (n : Nat) (d1 d2 : List (CVal × List Dict)) :
    List (CVal × List Dict) :=
  d1.map (fun kv => match clookup n d2 kv.1 with
                    | some l2 => (kv.1, kv.2 ++ l2)
                    | none => kv) ++
  d2.filter (fun kv => (clookup n d1 kv.1).isNone)

/-- The table-merge loop of `_fixGroupings` (data_handler.py:669-674). -/
def mergeInto (n : Nat) (files tbl : Table) : Table :=
  tbl.foldl (fun fs kv =>
    match alookup fs kv.1 with
    | some e1 => aset fs kv.1 (mergeObjMap n e1 kv.2)
    | none => aset fs kv.1 kv.2) files

/-- Normalize a lingering boolean `group` marker to absent
(data_handler.py:679-681 and 688-689). -/
def normGroup (d : Dict) : Dict :=
  match dlookup d "group" with
  | some (.b _) => derase d "group"
  | _ => d

/-- Apply `normGroup` to the element at index `i`. -/
def normAt (lst : List Dict) (i : Nat) : List Dict :=
  match lst[i]? with
  | some d => lst.set i (normGroup d)
  | none => lst

/-- `set(item1.keys()).symmetric_difference(set(item2.keys()))` is empty or
`{'group'}` (data_handler.py:690-692). -/
def symDiffGroupOnly (d1 d2 : Dict) : Bool :=
  (dkeys d1).all (fun k => dmem d2 k || k == "group") &&
  (dkeys d2).all (fun k => dmem d1 k || k == "group")

/-- `all(item1[k] == item2[k] for k in item1.keys() if k != 'group')`
(data_handler.py:693-694). -/
def valsEqExceptGroup (n : Nat) (d1 d2 : Dict) : Bool :=
  d1.all (fun kv => kv.1 == "group" ||
            match dlookup d2 kv.1 with
            | some v2 => pyEq n kv.2 v2
            | none => false)

/-- `flatten(item.get('group', []))`: the descriptor's group tags as a
list (data_handler.py:695-696). -/
def tagsOf (n : Nat) (d : Dict) : List CVal :=
  match dlookup d "group" with
  | some v => flatten n v
  | none => []

/-- One inner-loop step of the fusion scan (data_handler.py:682-697) for
positions `i < j2`: normalize `item2`'s boolean group marker, then fuse
`item2` into `item1` when they differ at most in `group` and `j2` is not
already marked for deletion. -/
def fuseStep (n : Nat) (i : Nat) (st : List Dict × List Nat) (j2 : Nat) :
    List Dict × List Nat :=
  let lst := normAt st.1 j2
  let dl := st.2
  match lst[i]?, lst[j2]? with
  | some item1, some item2 =>
      if !(dl.contains j2) && symDiffGroupOnly item1 item2 &&
         valsEqExceptGroup n item1 item2 then
        (lst.set i (dset item1 "group" (.list (tagsOf n item1 ++ tagsOf n item2))),
         dl ++ [j2])
      else (lst, dl)
  | _, _ => (lst, dl)

/-- The duplicate-fusion scan over one `(format, object_type)` list
(data_handler.py:677-697): the marked duplicates are deleted afterwards. -/
def fuseLoop (n : Nat) (lst : List Dict) : List Dict × List Nat :=
  let len := lst.length
  (List.range len).foldl (fun st i =>
    ((List.range len).drop (i + 1)).foldl (fuseStep n i) (normAt st.1 i, st.2))
    (lst, [])

/-- Drop the elements whose indices were marked for deletion
(data_handler.py:698-703). -/
def removeIdxs (lst : List Dict) (dl : List Nat) : List Dict :=
  lst.enum.filterMap (fun p => if dl.contains p.1 then none else some p.2)

/-- Fuse duplicates within one descriptor list. -/
def fuseList (n : Nat) (lst : List Dict) : List Dict :=
  let (lst', dl) := fuseLoop n lst
  removeIdxs lst' dl

/-- The fusion pass of `_fixGroupings` over the whole table
(data_handler.py:675-703). -/
def fuseTable (n : Nat) (tbl : Table) : Table :=
  tbl.map (fun kv => (kv.1, kv.2.map (fun ov => (ov.1, fuseList n ov.2))))

/-! ### `ConfigDataHandler._getGroups` / `._removeGroup`
(data_handler.py:728-799) -/

/-- `group_name → format_string → object_type → index` for one group. -/
abbrev GroupMap := List (String × List (CVal × Nat))

/-- The derived group table (`self.groups`), keyed by group name. -/
abbrev GroupTable := List (CVal × GroupMap)

/-- Record `(group_name, format, object_type) → index`
(data_handler.py:760-772): a second format for a known group name or a
second index for the same object type is a hard conflict. -/
def rgInsert (n : Nat) (rg : GroupTable) (gname : CVal) (key : String) (ot : CVal)
    (i : Nat) : Except Err GroupTable :=
  match clookup n rg gname with
  | none => .ok (cset n rg gname [(key, [(ot, i)])])
  | some gm =>
      match alookup gm key with
      | none => .error .groupConflict   -- line 765: "More than one format type found"
      | some inner =>
          if (clookup n inner ot).isSome then
            .error .groupConflict       -- line 768: "Multiple files with same object type"
          else .ok (cset n rg gname (aset gm key (cset n inner ot i)))

/-- Loop over the (possibly list-valued) group tag of one descriptor
(data_handler.py:757-761): booleans are skipped, unhashable names cannot
key the reverse table. -/
def rgInsertNames (n : Nat) (key : String) (ot : CVal) (i : Nat) :
    List CVal → GroupTable → Except Err GroupTable
  | [], rg => .ok rg
  | g :: gs, rg =>
      match g with
      | .b _ => rgInsertNames n key ot i gs rg
      | .list _ => .error .typeError
      | .dict _ => .error .typeError
      | .s sname =>
          match rgInsert n rg (.s sname) key ot i with
          | .error err => .error err
          | .ok rg' => rgInsertNames n key ot i gs rg'

/-- `[(i, item['group']) for i, item in enumerate(lst) if 'group' in item]`
(data_handler.py:749-751). -/
def pairsOf (lst : List Dict) : List (Nat × CVal) :=
  lst.enum.filterMap (fun p => match dlookup p.2 "group" with
                               | some gv => some (p.1, gv)
                               | none => none)

/-- Process the recorded `(index, group value)` pairs of one
`(format, object_type)` list. -/
def buildReverseList (n : Nat) (key : String) (ot : CVal) :
    List (Nat × CVal) → GroupTable → Except Err GroupTable
  | [], rg => .ok rg
  | (i, gv) :: rest, rg =>
      let gnames := match gv with
                    | .list l => l
                    | v => [v]
      match rgInsertNames n key ot i gnames rg with
      | .error err => .error err
      | .ok rg' => buildReverseList n key ot rest rg'

/-- Process the object types of one format. -/
def buildReverseObj (n : Nat) (key : String) :
    List (CVal × List Dict) → GroupTable → Except Err GroupTable
  | [], rg => .ok rg
  | (ot, lst) :: rest, rg =>
      match buildReverseList n key ot (pairsOf lst) rg with
      | .error err => .error err
      | .ok rg' => buildReverseObj n key rest rg'

/-- Derive the reverse group table from the file table
(data_handler.py:744-772). -/
def buildReverse (n : Nat) : Table → GroupTable → Except Err GroupTable
  | [], rg => .ok rg
  | (key, objmap) :: rest, rg =>
      match buildReverseObj n key objmap rg with
      | .error err => .error err
      | .ok rg' => buildReverse n rest rg'

/-- Python `==` of two inner `object_type → index` maps
(order-insensitive). -/
def innerEqB (n : Nat) (a b : List (CVal × Nat)) : Bool :=
  a.all (fun kv => match clookup n b kv.1 with
                   | some v => v == kv.2
                   | none => false) &&
  b.all (fun kv => (clookup n a kv.1).isSome)

/-- Python `==` of two group mappings (`reverse_groups[g] ==
reverse_groups[g2]`, order-insensitive at both levels). -/
def gmapEqB (n : Nat) (a b : GroupMap) : Bool :=
  a.all (fun kv => match alookup b kv.1 with
                   | some v => innerEqB n kv.2 v
                   | none => false) &&
  b.all (fun kv => (alookup a kv.1).isSome)

/-- Remove the first occurrence of a group name from a tag list
(`list.remove`, guarded by `in`, data_handler.py:795-796). -/
def listRemoveFirst (n : Nat) (g : CVal) : List CVal → List CVal
  | [] => []
  | x :: xs => if pyEq n x g then xs else x :: listRemoveFirst n g xs

/-- `ConfigDataHandler._removeGroup` on one descriptor
(data_handler.py:792-799): list tags lose the name's first occurrence, a
scalar tag equal to the name is reset to the bare `True` marker. -/
def removeGroupDesc (n : Nat) (g : CVal) (d : Dict) : Dict :=
  match dlookup d "group" with
  | none => d
  | some (.list l) => dset d "group" (.list (listRemoveFirst n g l))
  | some gv => if pyEq n gv g then dset d "group" (.b true) else d

/-- `ConfigDataHandler._removeGroup` (data_handler.py:786-799). -/
def removeGroup (n : Nat) (g : CVal) (tbl : Table) : Table :=
  tbl.map (fun kv => (kv.1, kv.2.map (fun ov => (ov.1, ov.2.map (removeGroupDesc n g)))))

/-- Number of group-tag slots of one descriptor that Python `==`-match the
name `g`: elements of a list tag, or the scalar tag itself. -/
def tagCount (n : Nat) (g : CVal) (d : Dict) : Nat :=
  match dlookup d "group" with
  | none => 0
  | some (.list l) => l.countP (fun x => pyEq n x g)
  | some gv => if pyEq n gv g then 1 else 0

/-- The name `g` appears on no descriptor of the table. -/
def strippedTbl (n : Nat) (g : CVal) (tbl : Table) : Prop :=
  ∀ p ∈ tbl, ∀ q ∈ p.2, ∀ d ∈ q.2, tagCount n g d = 0

/-- The inner alias-collapse scan for one kept group `gq`
(data_handler.py:778-783). -/
def dedupInner (n : Nat) (gq : CVal) :
    List CVal → GroupTable → List CVal → Table → GroupTable × List CVal × Table
  | [], rg, dl, tbl => (rg, dl, tbl)
  | g2 :: rest, rg, dl, tbl =>
      if dl.any (fun x => pyEq n x g2) then dedupInner n gq rest rg dl tbl
      else
        match clookup n rg gq, clookup n rg g2 with
        | some m1, some m2 =>
            if gmapEqB n m1 m2 then
              dedupInner n gq rest (cdel n rg g2) (dl ++ [g2]) (removeGroup n g2 tbl)
            else dedupInner n gq rest rg dl tbl
        | _, _ => dedupInner n gq rest rg dl tbl

/-- The outer alias-collapse scan over the key snapshot
(data_handler.py:774-783). -/
def dedupOuter (n : Nat) :
    List CVal → GroupTable → List CVal → Table → GroupTable × Table
  | [], rg, _, tbl => (rg, tbl)
  | g :: rest, rg, dl, tbl =>
      if dl.any (fun x => pyEq n x g) then dedupOuter n rest rg dl tbl
      else
        let (rg', dl', tbl') := dedupInner n g rest rg dl tbl
        dedupOuter n rest rg' dl' tbl'

/-- `ConfigDataHandler._getGroups` (data_handler.py:728-784): derive the
reverse group table, then collapse alias groups, stripping each deleted
name from the file table's descriptors (`_getGroups` mutates `file_dict`
through `_removeGroup`, so the updated table is returned alongside). -/
def getGroups (n : Nat) (tbl : Table) : Except Err (GroupTable × Table) :=
  if tbl.isEmpty then .ok ([], tbl)
  else
    match buildReverse n tbl [] with
    | .error err => .error err
    | .ok rg =>
        let keysSnap := rg.map Prod.fst
        let (rg', tbl') := dedupOuter n keysSnap rg [] tbl
        .ok (rg', tbl')

/-- `ConfigDataHandler._fixGroupings` (data_handler.py:660-704): merge the
per-source tables (`stile_utils.flatten` is the identity here since tables
are dict atoms), fuse duplicate descriptors, and derive the group table. -/
def fixGroupings (n : Nat) (tbls : List Table) : Except Err (Table × GroupTable) :=
  match tbls with
  | [] => .ok ([], [])        -- lines 666-667: `return {}, self._getGroups({})`
  | t0 :: rest =>
      let files := rest.foldl (fun fs t => mergeInto n fs t) t0
      let files2 := fuseTable n files
      match getGroups n files2 with
      | .error err => .error err
      | .ok (rg, files3) => .ok (files3, rg)

/-! ### `ConfigDataHandler._expandBins` (data_handler.py:1052-1088)

Bin expansion.  `ExpandBinList(self.makeBins(item['bins']))` — the
construction of leaf bin combinations by the external binning collaborator
(spec §4.6) — is the abstract parameter `oracle`, mapping the raw `bins`
value to the ordered list of leaf-bin annotations. -/

/-- `for item in item_list` preceded by the dict-wrapping at
data_handler.py:1057-1058; iterating a string yields characters, a bool is
not iterable. -/
def binsWrap : CVal → Except Err (List CVal)
  | .dict d => .ok [.dict d]
  | .list l => .ok l
  | .s sv => .ok (sv.toList.map (fun c => .s (String.singleton c)))
  | .b _ => .error .typeError

/-- The eager Cartesian product of data_handler.py:1069-1073 (`while
new_list: this_list = new_list.pop(); new_items = [[file]+n_i ...]`). -/
def cartesian (ls : List (List CVal)) : List (List CVal) :=
  ls.foldr (fun lst acc => lst.flatMap (fun f => acc.map (fun ni => f :: ni))) [[]]

/-- Contiguous-substring containment on character lists. -/
def hasSubstr (pat : List Char) : List Char → Bool
  | [] => pat.isEmpty
  | c :: rest => List.isPrefixOf pat (c :: rest) || hasSubstr pat rest

/-- Python `'bins' in item` for a string item (substring containment). -/
def strHasBins (sv : String) : Bool :=
  hasSubstr "bins".toList sv.toList

/-- Python `'bin_list' in item` for a string item. -/
def strHasBinList (sv : String) : Bool :=
  hasSubstr "bin_list".toList sv.toList

/-- The body of `ConfigDataHandler._expandBins` (data_handler.py:1059-1088)
over an already-iterable item list.  Fuel decreases on every recursive
call (both into nested lists and along the loop), keeping the definition
structural. -/
def expandBinsItems (oracle : CVal → List CVal) : Nat → List CVal → Except Err (List CVal)
  | _, [] => .ok []
  | 0, _ :: _ => .error .fuelExhausted
  | n + 1, item :: rest =>
      let hd : Except Err (List CVal) :=
        match item with
        | .list l =>
            -- lines 1061-1074: recurse into the sublist, then build the product
            match mapE (fun sub =>
                match binsWrap sub with
                | .error err => .error err
                | .ok w => expandBinsItems oracle n w) l with
            | .error err => .error err
            | .ok newList => .ok ((cartesian newList).map CVal.list)
        | .dict d =>
            if !dmem d "bins" then .ok [.dict d]        -- lines 1075-1076
            else if !dmem d "bin_list" then
              match dlookup d "bins" with
              | some bv =>                               -- lines 1080-1085
                  .ok ((oracle bv).map (fun bl => .dict (dset d "bin_list" bl)))
              | none => .error .keyError
            else .ok [.dict d]                           -- lines 1086-1087
        | .s sv =>
            -- `'bins' in item` is substring containment on a string item
            if !strHasBins sv then .ok [.s sv]
            else if !strHasBinList sv then .error .typeError  -- item['bins'] on a str
            else .ok [.s sv]
        | .b _ => .error .typeError
      match hd with
      | .error err => .error err
      | .ok hs =>
          match expandBinsItems oracle n rest with
          | .error err => .error err
          | .ok ts => .ok (hs ++ ts)

/-- `ConfigDataHandler._expandBins` (data_handler.py:1052-1088). -/
def expandBins (oracle : CVal → List CVal) (n : Nat) (itemList : CVal) :
    Except Err (List CVal) :=
  match binsWrap itemList with
  | .error err => .error err
  | .ok items => expandBinsItems oracle n items

/-! ### Query surface (data_handler.py:1111-1171) -/

/-- `ConfigDataHandler.listObjects` (data_handler.py:1118-1127) for a
format given as its canonical string (with neither `extent` nor
`data_format` passed, `_checkAndCoerceFormat` at lines 925-939 returns the
string unchanged). -/
def listObjects (files : Table) (fmt : String) : List CVal :=
  match alookup files fmt with
  | some objmap => objmap.map Prod.fst
  | none => []

/-- `ConfigDataHandler.listData` (data_handler.py:1129-1171) for a single
(string) object type and a format given as its canonical string: a string
is hashable and non-iterable in Python 2, so the single-object branch at
lines 1156-1160 runs; a present entry is passed through `_expandBins`, an
absent format or object type returns `[]` directly. -/
def listData (oracle : CVal → List CVal) (n : Nat) (files : Table)
    (objectType : String) (fmt : String) : Except Err (List CVal) :=
  match alookup files fmt with
  | some objmap =>
      match clookup n objmap (.s objectType) with
      | some lst => expandBinsItems oracle n (lst.map CVal.dict)
      | none => .ok []
  | none => .ok []

/-- The non-classification control keys extracted at
data_handler.py:480-493. -/
def control_keys : List String :=
  ["group", "wildcard", "fields", "flag_field", "file_reader"]

/-- The amended C3 consumption policy, stated as its own reference
recursion: once an axis round fires, *every* remaining key of the mapping
is popped in order and consumed as that axis's value (bound into the
inherited context as `axis := key`), with recursion proceeding on the
key's value. -/
def consumeAll (recur : CVal → Dict → Except Err CVal) (axis : String) :
    Dict → Dict → List CVal → Except Err (Dict × List CVal)
  | [], pk, ret => .ok (pk, ret)
  | (k, v) :: rest, pk, ret =>
      match recur v (dset pk axis (.s k)) with
      | .error e => .error e
      | .ok r => consumeAll recur axis rest (dset pk axis (.s k)) (pyExtend ret r)

/-- A descriptor the bin expander passes through unchanged: either it has
no `bins` specification or it already carries a resolved `bin_list`. -/
def stableDesc (e : CVal) : Prop :=
  ∃ de, e = .dict de ∧ (dmem de "bins" = false ∨ dmem de "bin_list" = true)

/-- A one-descriptor configuration with a glob-pattern `name` and wildcard
expansion requested, under the given epoch (extent `CCD`, data format
`catalog`, object type `star`). -/
def wildDesc (epoch p : String) : CVal :=
  .dict [(epoch, .dict [("CCD", .dict [("catalog", .dict [("star",
    .dict [("name", .s p), ("wildcard", .b true)])])])])]

/-- A concrete glob oracle whose directory order is not sorted: the
pattern `*.fits` matches `b.fits` before `a.fits`. -/
def globUnsorted : String → List String :=
  fun p => if p = "*.fits" then ["b.fits", "a.fits"] else []

/-- The descriptor produced by the tree normalizer for `wildDesc`. -/
def wildLeaf (epoch p : String) : Dict :=
  [("epoch", .s epoch), ("extent", .s "CCD"), ("data_format", .s "catalog"),
   ("object_type", .s "star"), ("wildcard", .b true), ("name", .s p)]

/-- The four classification bindings shared by `wildDesc`'s descriptors. -/
def axesStar (epoch : String) : Dict :=
  [("epoch", .s epoch), ("extent", .s "CCD"), ("data_format", .s "catalog"),
   ("object_type", .s "star")]

/-- The descriptor after wildcard expansion: `wildcard` popped, `name`
replaced by the expanded name list. -/
def readyDesc (epoch : String) (names : List CVal) : Dict :=
  axesStar epoch ++ [("name", .list names)]

/-- One re-split descriptor carrying a single concrete file name. -/
def splitDesc (epoch m : String) : Dict :=
  axesStar epoch ++ [("name", .s m)]

/-- The group-name values carried by a group tag: a list tag contributes
its elements, any other tag itself (`if not isinstance(group_names, list):
group_names = [group_names]`, data_handler.py:758-759). -/
def tagNamesOf (gv : CVal) : List CVal :=
  match gv with
  | .list l => l
  | v => [v]

/-- The descriptor at index `i` of `tbl[key][ot]` carries the string group
name `g` among its tags. -/
def taggedAt (n : Nat) (tbl : Table) (key : String) (ot : CVal) (i : Nat)
    (g : String) : Prop :=
  ∃ objmap lst d gv,
    alookup tbl key = some objmap ∧ clookup n objmap ot = some lst ∧
    lst[i]? = some d ∧ dlookup d "group" = some gv ∧ CVal.s g ∈ tagNamesOf gv

/-- The derived group table records index `i` for `(g, key, ot)`. -/
def recordedIn (n : Nat) (rg : GroupTable) (g : String) (key : String)
    (ot : CVal) (i : Nat) : Prop :=
  ∃ gm inner, clookup n rg (.s g) = some gm ∧ alookup gm key = some inner ∧
    clookup n inner ot = some i

/-- Every group of the table maps exactly one format key. -/
def singleFormat (rg : GroupTable) : Prop :=
  ∀ p ∈ rg, ∃ key inner, p.2 = [(key, inner)]

/-! ## Claim C2 — incomplete descriptors and the leaf stage

A descriptor list reaching the multiepoch leaf stage with all elements
non-iterable lands on `pass_kwargs.update({'name': files})`
(data_handler.py:434) with `pass_kwargs` never assigned on that path, so
Python raises `UnboundLocalError` — for incomplete and complete
descriptors alike — instead of the incomplete-specification `ValueError`
the spec prescribes.  The configuration below reaches that leaf missing
both `data_format` and `object_type`. -/

/-- C2 (code bug): the configuration
`{'multiepoch': {'CCD': ['f1', 'f2']}}` contains a flat multiepoch file
list that reaches the leaf stage missing the `data_format` and
`object_type` axes; resolution aborts with the unbound-local crash of
data_handler.py:434 rather than an IncompleteSpecification error. -/
theorem C2_incomplete_multiepoch_crash :
    parseFileHelper (fun _ => []) 20
      (.dict [("multiepoch", .dict [("CCD", .list [.s "f1", .s "f2"])])]) 0 =
    .error .unboundLocalError := by rfl

/-! ## Claim C4 — duplicate axis definitions at two nesting levels

The non-multiepoch leaf-list duplicate check (data_handler.py:447-450)
raises `ValueError("Duplicate definition of format element for item" +
str(item))`, but `item` is a variable of the *multiepoch* branch and is
unbound on this path, so evaluating the message raises
`UnboundLocalError` instead of the intended DuplicateSpecification
error. -/

/-- C4 (code bug): re-specifying `epoch` in a leaf descriptor below a
context that already binds `epoch` aborts (nothing is silently picked),
but with the unbound-local crash of data_handler.py:449-450 instead of the
DuplicateSpecification ('Duplicate definition') error the claim names. -/
theorem C4_duplicate_axis_crash :
    parseFileHelper (fun _ => []) 20
      (.dict [("coadd", .dict [("CCD", .dict [("catalog", .dict [("star",
        .list [.dict [("epoch", .s "single"), ("name", .s "f1")]])])])])]) 0 =
    .error .unboundLocalError := by rfl

/-! ## Claim C3 — which mapping keys are consumed as an axis value

The axis loop (data_handler.py:496-509) takes the key snapshot once and,
whenever *any* snapshot key lies in an axis's enumerated domain, consumes
*every* snapshot key as that axis's value — domain member or not (the
comment at lines 500-501 documents this as deliberate).  The claim's
"exactly those remaining keys that are members of the axis's domain" is
therefore false; the counterexample shows a key belonging to no domain
being consumed as the `epoch` value. -/

/-- C3 (counterexample): with extent, data_format and object_type bound in
the inherited context, the mapping `{'single': ['f1'], 'myepoch': ['f2']}`
resolves with the key `'myepoch'` — a member of no axis domain — consumed
as an `epoch` value, which the claim as stated forbids. -/
theorem C3_nonmember_key_consumed_counterexample :
    recurseDict 9 (.dict [("single", .list [.s "f1"]), ("myepoch", .list [.s "f2"])]) true
      [("extent", .s "CCD"), ("data_format", .s "catalog"), ("object_type", .s "star")] =
    .ok (.list
      [.dict [("extent", .s "CCD"), ("data_format", .s "catalog"),
              ("object_type", .s "star"), ("epoch", .s "single"), ("name", .s "f1")],
       .dict [("extent", .s "CCD"), ("data_format", .s "catalog"),
              ("object_type", .s "star"), ("epoch", .s "myepoch"), ("name", .s "f2")]]) ∧
    "myepoch" ∉ epochs ∧ "myepoch" ∉ extents ∧ "myepoch" ∉ data_formats ∧
    "myepoch" ∉ object_types :=
  ⟨by rfl, by decide, by decide, by decide, by decide⟩

theorem extractControls_no_controls (kwargs d : Dict)
    (h : ∀ ck ∈ control_keys, dmem d ck = false) :
    extractControls kwargs d = .ok (kwargs, d) := by
  have hg := h "group" (by simp [control_keys])
  have hw := h "wildcard" (by simp [control_keys])
  have hf := h "fields" (by simp [control_keys])
  have hff := h "flag_field" (by simp [control_keys])
  have hfr := h "file_reader" (by simp [control_keys])
  simp [extractControls, extractGroup, extractWildcard, extractFields,
    extractFlagField, extractFileReader, hg, hw, hf, hff, hfr]

theorem axisKeyLoop_consumeAll (recur : CVal → Dict → Except Err CVal)
    (axis : String) :
    ∀ (files : Dict) (pk : Dict) (ret : List CVal),
    axisKeyLoop recur axis (dkeys files) files pk ret =
      (consumeAll recur axis files pk ret).map (fun pr => ([], pr.1, pr.2)) := by
  intro files
  induction files with
  | nil => intro pk ret; simp [axisKeyLoop, consumeAll, dkeys, Except.map]
  | cons kv rest ih =>
      intro pk ret
      obtain ⟨k, v⟩ := kv
      have hd : dpop ((k, v) :: rest) k = some (v, rest) := by simp [dpop]
      simp only [dkeys, List.map_cons, axisKeyLoop, consumeAll, hd]
      cases hr : recur v (dset pk axis (.s k)) with
      | error e => simp [Except.map]
      | ok r => simpa [dkeys] using ih (dset pk axis (.s k)) (pyExtend ret r)

/-- C3 (amended): for a mapping with no control keys, if some remaining
key lies in the `epoch` domain, `epoch` is not already bound, and no
remaining key lies in any of the other three axis domains, then `epoch` is
bound and *all* remaining keys — members of the domain or not — are
consumed as `epoch` values with recursion on their values (the amended
reading of the consumption step; the counterexample above shows why
"exactly the domain members" fails). -/
theorem C3_axis_consumption_amended (n : Nat) (d kwargs : Dict) (req : Bool)
    (hnc : ∀ ck ∈ control_keys, dmem d ck = false)
    (hmatch : (dkeys d).any (fun k => epochs.contains k) = true)
    (hunbound : dmem kwargs "epoch" = false)
    (hext : (dkeys d).all (fun k => !extents.contains k) = true)
    (hdf : (dkeys d).all (fun k => !data_formats.contains k) = true)
    (hot : (dkeys d).all (fun k => !object_types.contains k) = true) :
    recurseDict (n + 1) (.dict d) req kwargs =
      (consumeAll (fun v kw => recurseDict n v req kw) "epoch" d kwargs []).map
        (fun pr => .list pr.2) := by
  have hskip : ∀ dom : List String, (dkeys d).all (fun k => !dom.contains k) = true →
      (dkeys d).any (fun k => dom.contains k) = false := by
    intro dom hall
    rw [List.any_eq_false]
    intro k hk
    have := List.all_eq_true.mp hall k hk
    simpa using this
  simp only [recurseDict, extractControls_no_controls kwargs d hnc]
  simp only [axisDomains, axisLoop, hmatch, if_true, hunbound, Bool.false_eq_true,
    if_false, axisKeyLoop_consumeAll]
  match hc : consumeAll (fun v kw => recurseDict n v req kw) "epoch" d kwargs [] with
  | .error e => simp [Except.map, hc]
  | .ok pr =>
      simp only [hc, Except.map]
      simp only [axisLoop, hskip extents hext, hskip data_formats hdf,
        hskip object_types hot, Bool.false_eq_true, if_false]
      simp [terminalLeaf]

/-- Witness for C3's amended theorem at the counterexample configuration:
both keys (`'single'` and `'myepoch'`) are consumed as `epoch` values. -/
theorem C3_axis_consumption_amended_witness :
    recurseDict 9 (.dict [("single", .list [.s "f1"]), ("myepoch", .list [.s "f2"])]) true
      [("extent", .s "CCD"), ("data_format", .s "catalog"), ("object_type", .s "star")] =
      (consumeAll (fun v kw => recurseDict 8 v true kw) "epoch"
        [("single", .list [.s "f1"]), ("myepoch", .list [.s "f2"])]
        [("extent", .s "CCD"), ("data_format", .s "catalog"), ("object_type", .s "star")]
        []).map (fun pr => .list pr.2) :=
  C3_axis_consumption_amended 8
    [("single", .list [.s "f1"]), ("myepoch", .list [.s "f2"])]
    [("extent", .s "CCD"), ("data_format", .s "catalog"), ("object_type", .s "star")]
    true (by decide) (by decide) (by decide) (by decide) (by decide) (by decide)

/-! ## Basic dictionary lemmas -/

theorem dlookup_dset_self (d : Dict) (k : String) (v : CVal) :
    dlookup (dset d k v) k = some v := by
  induction d with
  | nil => simp [dset, dlookup]
  | cons kv rest ih =>
      by_cases h : kv.1 = k
      · simp [dset, dlookup, h]
      · simp [dset, dlookup, h, ih]

theorem dlookup_dset_ne (d : Dict) (k k' : String) (v : CVal) (h : k' ≠ k) :
    dlookup (dset d k v) k' = dlookup d k' := by
  induction d with
  | nil => simp [dset, dlookup, Ne.symm h]
  | cons kv rest ih =>
      obtain ⟨k0, v0⟩ := kv
      by_cases hk : k0 = k
      · subst hk
        simp [dset, dlookup, Ne.symm h]
      · simp only [dset, if_neg hk]
        by_cases hk' : k0 = k'
        · simp [dlookup, hk']
        · simp [dlookup, hk', ih]

theorem dmem_dset_self (d : Dict) (k : String) (v : CVal) :
    dmem (dset d k v) k = true := by
  simp [dmem, dlookup_dset_self]

/-! ## Claim C9 — bin expansion is a pure, idempotent fan-out -/

theorem expandBinsItems_stable_run (oracle : CVal → List CVal) :
    ∀ R : List CVal, (∀ e ∈ R, stableDesc e) →
    ∀ m, R.length ≤ m → expandBinsItems oracle m R = .ok R := by
  intro R
  induction R with
  | nil => intro _ m _; cases m <;> simp [expandBinsItems]
  | cons e rest ih =>
      intro hst m hm
      match m with
      | 0 => simp at hm
      | m' + 1 =>
          obtain ⟨de, rfl, hcase⟩ := hst e (by simp)
          have hrest := ih (fun x hx => hst x (by simp [hx])) m' (by simpa using hm)
          rcases hcase with hnb | hbl
          · simp [expandBinsItems, hnb, hrest]
          · by_cases hb : dmem de "bins" = true <;>
              simp [expandBinsItems, hb, hbl, hrest]

theorem expandBinsItems_dicts_stable (oracle : CVal → List CVal) :
    ∀ (ds : List Dict) (n : Nat) (R : List CVal),
    expandBinsItems oracle n (ds.map CVal.dict) = .ok R → ∀ e ∈ R, stableDesc e := by
  intro ds
  induction ds with
  | nil =>
      intro n R h e he
      cases n <;> simp [expandBinsItems] at h <;> subst h <;> simp at he
  | cons d rest ih =>
      intro n R h e he
      match n with
      | 0 => simp [expandBinsItems] at h
      | n' + 1 =>
          simp only [List.map_cons, expandBinsItems] at h
          by_cases hb : dmem d "bins" = true
          · by_cases hbl : dmem d "bin_list" = true
            · simp only [hb, hbl, Bool.not_true, Bool.false_eq_true, if_false] at h
              match hrest : expandBinsItems oracle n' (rest.map CVal.dict) with
              | .error err => rw [hrest] at h; exact absurd h (by simp)
              | .ok ts =>
                  rw [hrest] at h
                  simp at h
                  subst h
                  rcases List.mem_cons.mp he with h1 | h2
                  · exact ⟨d, h1, Or.inr hbl⟩
                  · exact ih n' ts hrest e h2
            · simp only [hb, Bool.not_true, Bool.false_eq_true, if_false,
                eq_false_of_ne_true hbl, Bool.not_false, if_true] at h
              match hlk : dlookup d "bins" with
              | none => rw [hlk] at h; exact absurd h (by simp)
              | some bv =>
                  rw [hlk] at h
                  match hrest : expandBinsItems oracle n' (rest.map CVal.dict) with
                  | .error err => rw [hrest] at h; exact absurd h (by simp)
                  | .ok ts =>
                      rw [hrest] at h
                      simp at h
                      subst h
                      rcases (List.mem_append.mp he) with h1 | h2
                      · obtain ⟨bl, _, rfl⟩ := List.mem_map.mp h1
                        refine ⟨dset d "bin_list" bl, rfl, Or.inr ?_⟩
                        simp [dmem_dset_self]
                      · exact ih n' ts hrest e h2
          · simp only [eq_false_of_ne_true hb, Bool.not_false, if_true] at h
            match hrest : expandBinsItems oracle n' (rest.map CVal.dict) with
            | .error err => rw [hrest] at h; exact absurd h (by simp)
            | .ok ts =>
                rw [hrest] at h
                simp at h
                subst h
                rcases List.mem_cons.mp he with h1 | h2
                · exact ⟨d, h1, Or.inl (eq_false_of_ne_true hb)⟩
                · exact ih n' ts hrest e h2

/-- C9: a descriptor carrying a bin specification with `N` leaf bin
combinations produces exactly `N` descriptors, each a shallow copy of the
original differing only in its `bin_list` annotation; a descriptor that
already carries a resolved `bin_list`, or carries no `bins` specification,
is passed through unchanged; and re-running bin expansion on the output of
a run over descriptor dicts reproduces the output (idempotence). -/
theorem C9_expand_bins_fanout_idempotent (oracle : CVal → List CVal) (n : Nat)
    (d : Dict) (bv : CVal) (ds : List Dict) (R : List CVal) :
    (dmem d "bins" = true → dmem d "bin_list" = false → dlookup d "bins" = some bv →
      expandBins oracle (n + 1) (.dict d) =
        .ok ((oracle bv).map (fun bl => .dict (dset d "bin_list" bl))) ∧
      ∀ out, expandBins oracle (n + 1) (.dict d) = .ok out →
        out.length = (oracle bv).length) ∧
    ((dmem d "bins" = false ∨ dmem d "bin_list" = true) →
      expandBins oracle (n + 1) (.dict d) = .ok [.dict d]) ∧
    (expandBinsItems oracle n (ds.map CVal.dict) = .ok R →
      ∀ m, R.length ≤ m → expandBinsItems oracle m R = .ok R) := by
  refine ⟨fun hb hbl hlk => ⟨?_, ?_⟩, fun hpass => ?_, fun hrun m hm => ?_⟩
  · simp [expandBins, binsWrap, expandBinsItems, hb, hbl, hlk]
  · intro out hout
    rw [show expandBins oracle (n + 1) (.dict d) =
          .ok ((oracle bv).map (fun bl => .dict (dset d "bin_list" bl))) from
        by simp [expandBins, binsWrap, expandBinsItems, hb, hbl, hlk]] at hout
    simp at hout
    simp [← hout]
  · rcases hpass with hnb | hbl
    · simp [expandBins, binsWrap, expandBinsItems, hnb]
    · by_cases hb : dmem d "bins" = true <;>
        simp [expandBins, binsWrap, expandBinsItems, hb, hbl]
  · exact expandBinsItems_stable_run oracle R
      (expandBinsItems_dicts_stable oracle ds n R hrun) m hm

/-- Witness for C9: a two-bin specification fans a descriptor out into two
copies, a binned and an unbinned descriptor pass through, and re-expanding
the two-element output is a no-op. -/
theorem C9_expand_bins_fanout_idempotent_witness :
    expandBins (fun _ => [.s "b1", .s "b2"]) 5
        (.dict [("name", .s "f"), ("bins", .s "B")]) =
      .ok [.dict [("name", .s "f"), ("bins", .s "B"), ("bin_list", .s "b1")],
           .dict [("name", .s "f"), ("bins", .s "B"), ("bin_list", .s "b2")]] ∧
    expandBins (fun _ => [.s "b1", .s "b2"]) 5 (.dict [("name", .s "f")]) =
      .ok [.dict [("name", .s "f")]] ∧
    expandBinsItems (fun _ => [.s "b1", .s "b2"]) 9
        [.dict [("name", .s "f"), ("bins", .s "B"), ("bin_list", .s "b1")],
         .dict [("name", .s "f"), ("bins", .s "B"), ("bin_list", .s "b2")]] =
      .ok [.dict [("name", .s "f"), ("bins", .s "B"), ("bin_list", .s "b1")],
           .dict [("name", .s "f"), ("bins", .s "B"), ("bin_list", .s "b2")]] := by
  have h1 := (C9_expand_bins_fanout_idempotent (fun _ => [.s "b1", .s "b2"]) 4
      [("name", .s "f"), ("bins", .s "B")] (.s "B") [] []).1 (by rfl) (by rfl) (by rfl)
  have h2 := (C9_expand_bins_fanout_idempotent (fun _ => [.s "b1", .s "b2"]) 4
      [("name", .s "f")] (.s "B") [] []).2.1 (Or.inl (by rfl))
  have h3 := (C9_expand_bins_fanout_idempotent (fun _ => [.s "b1", .s "b2"]) 4
      [("name", .s "f")] (.s "B")
      [[("name", .s "f"), ("bins", .s "B")]]
      [.dict [("name", .s "f"), ("bins", .s "B"), ("bin_list", .s "b1")],
       .dict [("name", .s "f"), ("bins", .s "B"), ("bin_list", .s "b2")]]).2.2
      (by rfl) 9 (by simp)
  exact ⟨by simpa using h1.1, h2, h3⟩

/-! ## Claim C5 — duplicate fusion in the merge stage -/

theorem alookup_map_snd {α β : Type} (f : α → β) :
    ∀ (l : List (String × α)) (k : String),
    alookup (l.map (fun kv => (kv.1, f kv.2))) k = (alookup l k).map f := by
  intro l
  induction l with
  | nil => intro k; rfl
  | cons kv rest ih =>
      intro k
      by_cases h : kv.1 = k <;> simp [alookup, h, ih]

theorem clookup_map_snd {α β : Type} (n : Nat) (f : α → β) :
    ∀ (l : List (CVal × α)) (k : CVal),
    clookup n (l.map (fun kv => (kv.1, f kv.2))) k = (clookup n l k).map f := by
  intro l
  induction l with
  | nil => intro k; rfl
  | cons kv rest ih =>
      intro k
      by_cases h : pyEq n kv.1 k = true <;> simp [clookup, h, ih]

theorem dlookup_mem_keys {d : Dict} {k : String} {v : CVal}
    (h : dlookup d k = some v) : k ∈ dkeys d := by
  induction d with
  | nil => simp [dlookup] at h
  | cons kv rest ih =>
      obtain ⟨k0, v0⟩ := kv
      by_cases hk : k0 = k
      · simp [dkeys, hk]
      · simp only [dlookup, hk, if_false] at h
        simp only [dkeys, List.map_cons, List.mem_cons]
        exact Or.inr (by simpa [dkeys] using ih h)

theorem dlookup_derase_self (d : Dict) (k : String)
    (hnd : (dkeys d).Nodup) : dlookup (derase d k) k = none := by
  induction d with
  | nil => rfl
  | cons kv rest ih =>
      obtain ⟨k0, v0⟩ := kv
      simp only [dkeys, List.map_cons, List.nodup_cons] at hnd
      by_cases h : k0 = k
      · subst h
        simp only [derase, if_pos rfl]
        cases hl : dlookup rest k0
        · exact hl
        · exact absurd (dlookup_mem_keys hl) hnd.1
      · simp [derase, h, dlookup, ih hnd.2]

theorem normGroup_idem (d : Dict) (hnd : (dkeys d).Nodup) :
    normGroup (normGroup d) = normGroup d := by
  unfold normGroup
  cases hl : dlookup d "group" with
  | none => simp [hl]
  | some gv =>
      cases gv with
      | b bv => simp [dlookup_derase_self d "group" hnd]
      | s sv => simp [hl]
      | list l => simp [hl]
      | dict dd => simp [hl]

/-- C5: within a `(format, object_type)` list holding two descriptors that
are identical on every key except `group` (after normalizing boolean group
markers to absent), the fusion pass of `_fixGroupings` fuses them into the
first descriptor, whose group tags become the concatenation (the union as
tag lists) of both descriptors' tag lists, and removes the duplicate — the
list shrinks from two entries to one. -/
theorem C5_duplicate_fusion (n : Nat) (tbl : Table) (fmt : String) (ot : CVal)
    (objmap : List (CVal × List Dict)) (d1 d2 : Dict)
    (htbl : alookup tbl fmt = some objmap)
    (hot : clookup n objmap ot = some [d1, d2])
    (hnd2 : (dkeys d2).Nodup)
    (hkeys : symDiffGroupOnly (normGroup d1) (normGroup d2) = true)
    (hvals : valsEqExceptGroup n (normGroup d1) (normGroup d2) = true) :
    alookup (fuseTable n tbl) fmt =
      some (objmap.map (fun ov => (ov.1, fuseList n ov.2))) ∧
    clookup n (objmap.map (fun ov => (ov.1, fuseList n ov.2))) ot =
      some [dset (normGroup d1) "group"
        (.list (tagsOf n (normGroup d1) ++ tagsOf n (normGroup d2)))] := by
  have h1 : alookup (fuseTable n tbl) fmt =
      some (objmap.map (fun ov => (ov.1, fuseList n ov.2))) := by
    unfold fuseTable
    rw [alookup_map_snd (fun e => e.map (fun ov => (ov.1, fuseList n ov.2))) tbl fmt, htbl]
    rfl
  refine ⟨h1, ?_⟩
  rw [clookup_map_snd n (fuseList n) objmap ot, hot]
  have hfuse : fuseList n [d1, d2] =
      [dset (normGroup d1) "group"
        (.list (tagsOf n (normGroup d1) ++ tagsOf n (normGroup d2)))] := by
    have hstep : fuseStep n 0 ([normGroup d1, d2], ([] : List Nat)) 1 =
        ([dset (normGroup d1) "group"
            (.list (tagsOf n (normGroup d1) ++ tagsOf n (normGroup d2))),
          normGroup d2], [1]) := by
      have hbody : fuseStep n 0 ([normGroup d1, d2], ([] : List Nat)) 1 =
          (if !(([] : List Nat).contains 1) &&
              symDiffGroupOnly (normGroup d1) (normGroup d2) &&
              valsEqExceptGroup n (normGroup d1) (normGroup d2) then
            ([dset (normGroup d1) "group"
                (.list (tagsOf n (normGroup d1) ++ tagsOf n (normGroup d2))),
              normGroup d2], [1])
          else ([normGroup d1, normGroup d2], [])) := rfl
      rw [hbody, hkeys, hvals]
      rfl
    have e1 : fuseLoop n [d1, d2] =
        (normAt (fuseStep n 0 ([normGroup d1, d2], ([] : List Nat)) 1).1 1,
         (fuseStep n 0 ([normGroup d1, d2], ([] : List Nat)) 1).2) := rfl
    rw [hstep] at e1
    have e2 : normAt
        [dset (normGroup d1) "group"
          (.list (tagsOf n (normGroup d1) ++ tagsOf n (normGroup d2))),
         normGroup d2] 1 =
        [dset (normGroup d1) "group"
          (.list (tagsOf n (normGroup d1) ++ tagsOf n (normGroup d2))),
         normGroup (normGroup d2)] := rfl
    rw [e2, normGroup_idem d2 hnd2] at e1
    unfold fuseList
    rw [e1]
    rfl
  show some (fuseList n [d1, d2]) =
    some [dset (normGroup d1) "group"
      (.list (tagsOf n (normGroup d1) ++ tagsOf n (normGroup d2)))]
  rw [hfuse]

/-- Witness for C5: two descriptors for the same file differing only in
their scalar group tags fuse into one whose tag list holds both names. -/
theorem C5_duplicate_fusion_witness :
    alookup (fuseTable 9
        [("F", [(.s "star", [[("name", .s "f"), ("group", .s "g1")],
                             [("name", .s "f"), ("group", .s "g2")]])])]) "F" =
      some ([(.s "star", [[("name", .s "f"), ("group", .s "g1")],
                          [("name", .s "f"), ("group", .s "g2")]])].map
        (fun ov => (ov.1, fuseList 9 ov.2))) ∧
    clookup 9 ([(.s "star", [[("name", .s "f"), ("group", .s "g1")],
                             [("name", .s "f"), ("group", .s "g2")]])].map
        (fun ov => (ov.1, fuseList 9 ov.2))) (.s "star") =
      some [dset (normGroup [("name", .s "f"), ("group", .s "g1")]) "group"
        (.list (tagsOf 9 (normGroup [("name", .s "f"), ("group", .s "g1")]) ++
                tagsOf 9 (normGroup [("name", .s "f"), ("group", .s "g2")])))] :=
  C5_duplicate_fusion 9
    [("F", [(.s "star", [[("name", .s "f"), ("group", .s "g1")],
                         [("name", .s "f"), ("group", .s "g2")]])])]
    "F" (.s "star")
    [(.s "star", [[("name", .s "f"), ("group", .s "g1")],
                  [("name", .s "f"), ("group", .s "g2")]])]
    [("name", .s "f"), ("group", .s "g1")]
    [("name", .s "f"), ("group", .s "g2")]
    (by rfl) (by rfl) (by decide) (by rfl) (by rfl)

/-! ## Claim C8 — wildcard expansion shapes -/

theorem charListLe_total : ∀ a b, charListLe a b = true ∨ charListLe b a = true
  | [], _ => Or.inl rfl
  | _ :: _, [] => Or.inr rfl
  | a :: as, b :: bs => by
      by_cases h1 : a.toNat < b.toNat
      · left; simp [charListLe, h1]
      · by_cases h2 : b.toNat < a.toNat
        · right; simp [charListLe, h2, h1]
        · rcases charListLe_total as bs with h | h
          · left; simp [charListLe, h1, h2, h]
          · right; simp [charListLe, h2, h1, h]

theorem strLeB_total (a b : String) : strLeB a b = true ∨ strLeB b a = true :=
  charListLe_total a.toList b.toList

theorem insertSorted_perm (s : String) : ∀ l, (insertSorted s l).Perm (s :: l)
  | [] => List.Perm.refl _
  | x :: xs => by
      by_cases h : strLeB s x = true
      · simp [insertSorted, h]
      · simp only [insertSorted, h, Bool.false_eq_true, if_false]
        exact ((insertSorted_perm s xs).cons x).trans (List.Perm.swap s x xs)

theorem sortStrs_perm : ∀ l : List String, (sortStrs l).Perm l
  | [] => List.Perm.refl _
  | x :: xs => (insertSorted_perm x (sortStrs xs)).trans ((sortStrs_perm xs).cons x)

theorem chainLe_insertSorted (s : String) :
    ∀ l, l.Chain' (fun a b => strLeB a b = true) →
      (insertSorted s l).Chain' (fun a b => strLeB a b = true)
  | [], _ => by simp [insertSorted]
  | x :: xs, h => by
      by_cases hsx : strLeB s x = true
      · simp only [insertSorted, hsx, if_true]
        exact List.chain'_cons.mpr ⟨hsx, h⟩
      · simp only [insertSorted, hsx, Bool.false_eq_true, if_false]
        rw [List.chain'_cons']
        have hxs : strLeB x s = true := (strLeB_total s x).resolve_left hsx
        have htail := chainLe_insertSorted s xs (List.Chain'.tail h)
        refine ⟨?_, htail⟩
        intro y hy
        match xs, hy with
        | [], hy => simp [insertSorted] at hy; simpa [hy] using hxs
        | z :: zs, hy =>
            by_cases hsz : strLeB s z = true
            · simp [insertSorted, hsz] at hy
              simpa [hy] using hxs
            · simp [insertSorted, hsz] at hy
              rw [List.chain'_cons] at h
              simpa [hy] using h.1

theorem sortStrs_chain :
    ∀ l : List String, (sortStrs l).Chain' (fun a b => strLeB a b = true)
  | [] => by simp [sortStrs]
  | x :: xs => chainLe_insertSorted x (sortStrs xs) (sortStrs_chain xs)

theorem filter_truthy_map_s :
    ∀ L : List String, (∀ m ∈ L, m ≠ "") →
      (L.map CVal.s).filter truthy = L.map CVal.s := by
  intro L h
  induction L with
  | nil => rfl
  | cons m rest ih =>
      have hm : m ≠ "" := h m (by simp)
      have hne : m.isEmpty = false := by
        cases he : m.isEmpty
        · rfl
        · exact absurd ((String.isEmpty_iff m).mp he) hm
      simp only [List.map_cons, List.filter_cons, truthy, hne, Bool.not_false, if_true]
      rw [ih (fun x hx => h x (by simp [hx]))]

/-- Step the parse helper through its four stages. -/
theorem parseFileHelper_via (g : String → List String) (n : Nat) (d0 : Dict)
    (startN : Nat) (items : List CVal) (ds : List Dict) (rl : List Dict)
    (n' : Nat) (tbl : Table)
    (h1 : recurseDict n (.dict d0) true [] = .ok (.list items))
    (h2 : checkExpandLoop g n items = .ok ds)
    (h3 : groupFiles n (ds.map CVal.dict) startN = .ok (rl, n'))
    (h4 : formatFileList n rl [] = .ok tbl) :
    parseFileHelper g n (.dict d0) startN = .ok (tbl, n') := by
  simp [parseFileHelper, h1, h2, h3, h4]

theorem checkExpand_wild_single (g : String → List String) (p : String)
    (hf : ((g p).map CVal.s).filter truthy = (g p).map CVal.s) :
    checkExpandLoop g 20 [.dict (wildLeaf "single" p)] =
      .ok [readyDesc "single" ((g p).map CVal.s)] := by
  have h0 : checkExpandLoop g 20 [.dict (wildLeaf "single" p)] =
      .ok [readyDesc "single" (((g p).map CVal.s).filter truthy)] := rfl
  rw [h0, hf]

theorem checkExpand_wild_multi (g : String → List String) (p : String)
    (hf : ((sortStrs (g p)).map CVal.s).filter truthy = (sortStrs (g p)).map CVal.s) :
    checkExpandLoop g 20 [.dict (wildLeaf "multiepoch" p)] =
      .ok [readyDesc "multiepoch" ((sortStrs (g p)).map CVal.s)] := by
  have h0 : checkExpandLoop g 20 [.dict (wildLeaf "multiepoch" p)] =
      .ok [readyDesc "multiepoch" (((sortStrs (g p)).map CVal.s).filter truthy)] := rfl
  rw [h0, hf]

theorem splitRecord_names (d : Dict) (fmt : String) :
    ∀ (ms : List String) (rl : List Dict) (idxs : List Nat),
    ∃ idxs', splitRecord 20 d fmt (.s "star") (ms.map CVal.s) rl
        [(fmt, [(.s "star", idxs)])] =
      (rl ++ ms.map (fun m => dset d "name" (.s m)), [(fmt, [(.s "star", idxs')])]) := by
  intro ms
  induction ms with
  | nil => exact fun rl idxs => ⟨idxs, by simp [splitRecord]⟩
  | cons m rest ih =>
      intro rl idxs
      obtain ⟨idxs', hi⟩ := ih (rl ++ [dset d "name" (.s m)]) (idxs ++ [rl.length])
      refine ⟨idxs', ?_⟩
      have hfd : fdRecord 20 [(fmt, [(.s "star", idxs)])] fmt (.s "star") rl.length =
          [(fmt, [(.s "star", idxs ++ [rl.length])])] := by
        simp [fdRecord, alookup, clookup, pyEq, cset, aset]
      simp only [List.map_cons, splitRecord, hfd, hi]
      simp

theorem formatFileList_splits (e : String) :
    ∀ (ms : List String) (ds0 : List Dict),
    formatFileList 20 (ms.map (splitDesc e))
        [(formatStr (.s e) (.s "CCD") (.s "catalog"), [(.s "star", ds0)])] =
      .ok [(formatStr (.s e) (.s "CCD") (.s "catalog"),
            [(.s "star", ds0 ++ ms.map (fun m => [("name", .s m)]))])] := by
  intro ms
  induction ms with
  | nil => intro ds0; simp [formatFileList]
  | cons m rest ih =>
      intro ds0
      have hstep : formatFileList 20 ((m :: rest).map (splitDesc e))
          [(formatStr (.s e) (.s "CCD") (.s "catalog"), [(.s "star", ds0)])] =
          formatFileList 20 (rest.map (splitDesc e))
          [(formatStr (.s e) (.s "CCD") (.s "catalog"),
            [(.s "star", ds0 ++ [[("name", .s m)]])])] := by
        simp only [List.map_cons, formatFileList, splitDesc, axesStar]
        simp [dpop, isMultiV, hashable, flatten, formatNamesLoop, tAppend,
          alookup, clookup, cset, aset, pyEq, dset]
      rw [hstep, ih (ds0 ++ [[("name", CVal.s m)]])]
      simp

/-- C8 (counterexample): glob's directory order is preserved, unsorted, in
the non-multiepoch case — with matches `['b.fits', 'a.fits']` the resolved
table lists `b.fits` before `a.fits`, so wildcard expansion does not
resolve this glob pattern into a sorted list as the claim states. -/
theorem C8_glob_order_unsorted_counterexample :
    parseFileHelper globUnsorted 20 (wildDesc "single" "*.fits") 0 =
      .ok ([("single-CCD-catalog",
        [(.s "star", [[("name", .s "b.fits")], [("name", .s "a.fits")]])])], 0) ∧
    ¬ ["b.fits", "a.fits"].Chain' (fun a b => strLeB a b = true) :=
  ⟨by rfl, by
    intro hch
    have h1 := (List.chain'_cons.mp hch).1
    rw [show strLeB "b.fits" "a.fits" = false from rfl] at h1
    exact absurd h1 (by simp)⟩

/-- C8 (amended): wildcard expansion of a scalar pattern matching `k`
files yields, in the multiepoch case, one descriptor whose `name` is the
`k`-element *sorted* list of matches (sorted: the chain conjunct; all
matches, each exactly once: the permutation conjunct), and in the
non-multiepoch case `k` independent single-name descriptors after the
re-split stage — in glob's enumeration order, which is *not* re-sorted
(the counterexample above shows an unsorted outcome, forcing the
amendment). -/
theorem C8_wildcard_epoch_shapes (g : String → List String) (p : String)
    (hne : ∀ m ∈ g p, m ≠ "") :
    (parseFileHelper g 20 (wildDesc "multiepoch" p) 7 =
      .ok ([("multiepoch-CCD-catalog",
        [(.s "star", [[("name", .list ((sortStrs (g p)).map CVal.s))]])])], 7) ∧
     (sortStrs (g p)).Chain' (fun a b => strLeB a b = true) ∧
     (sortStrs (g p)).Perm (g p) ∧
     (sortStrs (g p)).length = (g p).length) ∧
    (g p ≠ [] →
      parseFileHelper g 20 (wildDesc "single" p) 7 =
        .ok ([("single-CCD-catalog",
          [(.s "star", (g p).map (fun m => [("name", .s m)]))])], 7)) := by
  have hperm := sortStrs_perm (g p)
  constructor
  · have hfm : ((sortStrs (g p)).map CVal.s).filter truthy =
        (sortStrs (g p)).map CVal.s :=
      filter_truthy_map_s _ (fun m hm => hne m (hperm.mem_iff.mp hm))
    refine ⟨?_, sortStrs_chain (g p), hperm, hperm.length_eq⟩
    refine parseFileHelper_via g 20 _ 7 [.dict (wildLeaf "multiepoch" p)]
      [readyDesc "multiepoch" ((sortStrs (g p)).map CVal.s)] _ _ _
      (by rfl) (checkExpand_wild_multi g p hfm) (by rfl) (by rfl)
  · intro hnil
    have hf : ((g p).map CVal.s).filter truthy = (g p).map CVal.s :=
      filter_truthy_map_s _ hne
    match hgp : g p, hnil with
    | m0 :: ms, _ =>
        have hf' : (((m0 :: ms)).map CVal.s).filter truthy = (m0 :: ms).map CVal.s := by
          rw [← hgp]; exact hf
        -- stage 2: wildcard expansion
        have h2 : checkExpandLoop g 20 [.dict (wildLeaf "single" p)] =
            .ok [readyDesc "single" ((m0 :: ms).map CVal.s)] := by
          have := checkExpand_wild_single g p hf
          rw [hgp] at this
          exact this
        -- stage 3: grouping splits the name list
        obtain ⟨idxs', hsplit⟩ := splitRecord_names
          (readyDesc "single" ((m0 :: ms).map CVal.s)) "single-CCD-catalog"
          ms [dset (readyDesc "single" ((m0 :: ms).map CVal.s)) "name" (.s m0)] [0]
        have h3 : groupFiles 20 [.dict (readyDesc "single" ((m0 :: ms).map CVal.s))] 7 =
            .ok ((m0 :: ms).map (fun m => splitDesc "single" m), 7) := by
          have hp1 : groupPhase1 20 [.dict (readyDesc "single" ((m0 :: ms).map CVal.s))] [] [] =
              .ok (splitRecord 20 (readyDesc "single" ((m0 :: ms).map CVal.s))
                "single-CCD-catalog" (.s "star") ((m0 :: ms).map CVal.s) [] []) := by
            rfl
          have hstep : splitRecord 20 (readyDesc "single" ((m0 :: ms).map CVal.s))
              "single-CCD-catalog" (.s "star") ((m0 :: ms).map CVal.s) [] [] =
              splitRecord 20 (readyDesc "single" ((m0 :: ms).map CVal.s))
              "single-CCD-catalog" (.s "star") (ms.map CVal.s)
              [dset (readyDesc "single" ((m0 :: ms).map CVal.s)) "name" (.s m0)]
              [("single-CCD-catalog", [(.s "star", [0])])] := by rfl
          have hdset : ∀ m : String,
              dset (readyDesc "single" ((m0 :: ms).map CVal.s)) "name" (.s m) =
                splitDesc "single" m := fun _ => rfl
          rw [groupFiles, hp1, hstep, hsplit]
          simp only [hdset]
          simp [groupPhase2, List.map_cons]
        -- stage 4: the re-split descriptors are filed one per name
        have h4 : formatFileList 20 ((m0 :: ms).map (fun m => splitDesc "single" m)) [] =
            .ok [("single-CCD-catalog",
              [(.s "star", (m0 :: ms).map (fun m => [("name", .s m)]))])] := by
          have hhead : formatFileList 20 ((m0 :: ms).map (splitDesc "single")) [] =
              formatFileList 20 (ms.map (splitDesc "single"))
              [("single-CCD-catalog", [(.s "star", [[("name", .s m0)]])])] := by rfl
          have := formatFileList_splits "single" ms [[("name", .s m0)]]
          simp only [formatStr, pyStr,
            show ("single" ++ "-" ++ "CCD" ++ "-" ++ "catalog" : String) =
              "single-CCD-catalog" from rfl] at this
          rw [hhead, this]
          simp
        exact parseFileHelper_via g 20 _ 7 [.dict (wildLeaf "single" p)]
          [readyDesc "single" ((m0 :: ms).map CVal.s)] _ _ _
          (by rfl) h2 h3 h4

/-- Witness for C8's amended theorem at the concrete unsorted glob
oracle. -/
theorem C8_wildcard_epoch_shapes_witness :
    parseFileHelper globUnsorted 20 (wildDesc "multiepoch" "*.fits") 7 =
      .ok ([("multiepoch-CCD-catalog",
        [(.s "star",
          [[("name", .list ((sortStrs (globUnsorted "*.fits")).map CVal.s))]])])], 7) ∧
    parseFileHelper globUnsorted 20 (wildDesc "single" "*.fits") 7 =
      .ok ([("single-CCD-catalog",
        [(.s "star", (globUnsorted "*.fits").map (fun m => [("name", .s m)]))])], 7) :=
  ⟨((C8_wildcard_epoch_shapes globUnsorted "*.fits" (by decide)).1).1,
   (C8_wildcard_epoch_shapes globUnsorted "*.fits" (by decide)).2 (by decide)⟩

/-! ## Claim C7 — group-conflict detection -/

theorem pyEq_refl_atom {n : Nat} (hn : 0 < n) {a : CVal}
    (ha : hashable a = true) : pyEq n a a = true := by
  match n, hn with
  | m + 1, _ =>
      cases a with
      | b bv => simp [pyEq]
      | s sv => simp [pyEq]
      | list l => simp [hashable] at ha
      | dict d => simp [hashable] at ha

theorem pyEq_atom_eq {n : Nat} {a b : CVal} (ha : hashable a = true)
    (h : pyEq n a b = true) : a = b := by
  match n with
  | 0 => simp [pyEq] at h
  | m + 1 =>
      cases a with
      | b bv =>
          cases b with
          | b bv2 => simp [pyEq] at h; simp [h]
          | s sv2 => simp [pyEq] at h
          | list l => cases l <;> simp [pyEq] at h
          | dict dd => simp [pyEq] at h
      | s sv =>
          cases b with
          | b bv2 => simp [pyEq] at h
          | s sv2 => simp [pyEq] at h; simp [h]
          | list l => cases l <;> simp [pyEq] at h
          | dict dd => simp [pyEq] at h
      | list l => simp [hashable] at ha
      | dict dd => simp [hashable] at ha

theorem pyEq_atom_eq' {n : Nat} {a b : CVal} (hb : hashable b = true)
    (h : pyEq n a b = true) : a = b := by
  match n with
  | 0 => simp [pyEq] at h
  | m + 1 =>
      cases b with
      | b bv =>
          cases a with
          | b bv2 => simp [pyEq] at h; simp [h]
          | s sv2 => simp [pyEq] at h
          | list l => cases l <;> simp [pyEq] at h
          | dict dd => simp [pyEq] at h
      | s sv =>
          cases a with
          | b bv2 => simp [pyEq] at h
          | s sv2 => simp [pyEq] at h; simp [h]
          | list l => cases l <;> simp [pyEq] at h
          | dict dd => simp [pyEq] at h
      | list l => simp [hashable] at hb
      | dict dd => simp [hashable] at hb

theorem clookup_cset_self {α : Type} {n : Nat} {k : CVal} (hk : pyEq n k k = true)
    (v : α) : ∀ l : List (CVal × α), clookup n (cset n l k v) k = some v := by
  intro l
  induction l with
  | nil => simp [cset, clookup, hk]
  | cons kv rest ih =>
      by_cases h : pyEq n kv.1 k = true
      · simp [cset, h, clookup]
      · simp [cset, h, clookup, ih]

theorem clookup_cset_ne {α : Type} {n : Nat} {k k' : CVal} (_hn : 0 < n)
    (hk : hashable k = true) (hne : k ≠ k') (v : α) :
    ∀ l : List (CVal × α), clookup n (cset n l k v) k' = clookup n l k' := by
  have hkk' : pyEq n k k' = false := by
    cases h : pyEq n k k'
    · rfl
    · exact absurd (pyEq_atom_eq hk h) hne
  intro l
  induction l with
  | nil => simp [cset, clookup, hkk']
  | cons kv rest ih =>
      obtain ⟨k0, v0⟩ := kv
      by_cases h : pyEq n k0 k = true
      · have hk0 : k0 = k := pyEq_atom_eq' hk h
        subst hk0
        simp [cset, h, clookup, hkk']
      · simp [cset, h, clookup, ih]

theorem clookup_mem {α : Type} {n : Nat} {l : List (CVal × α)} {k : CVal}
    {v : α} (h : clookup n l k = some v) :
    ∃ ke, (ke, v) ∈ l ∧ pyEq n ke k = true := by
  induction l with
  | nil => simp [clookup] at h
  | cons kv rest ih =>
      obtain ⟨k0, v0⟩ := kv
      by_cases hk : pyEq n k0 k = true
      · rw [clookup, if_pos hk] at h
        simp only [Option.some.injEq] at h
        exact ⟨k0, by simp [← h], hk⟩
      · rw [clookup, if_neg hk] at h
        obtain ⟨ke, hke, hp⟩ := ih h
        exact ⟨ke, List.mem_cons_of_mem _ hke, hp⟩

theorem alookup_mem {α : Type} : ∀ {l : List (String × α)} {k : String} {v : α},
    alookup l k = some v → (k, v) ∈ l := by
  intro l
  induction l with
  | nil => intro k v h; simp [alookup] at h
  | cons kv rest ih =>
      intro k v h
      obtain ⟨k0, v0⟩ := kv
      by_cases hk : k0 = k
      · subst hk
        rw [alookup, if_pos rfl] at h
        simp only [Option.some.injEq] at h
        subst h
        exact List.mem_cons_self _ _
      · rw [alookup, if_neg hk] at h
        exact List.mem_cons_of_mem _ (ih h)

theorem mem_cset {α : Type} {n : Nat} {l : List (CVal × α)} {k : CVal} {v : α} :
    ∀ p ∈ cset n l k v, p.2 = v ∨ p ∈ l := by
  induction l with
  | nil => intro p hp; simp [cset] at hp; simp [hp]
  | cons kv rest ih =>
      intro p hp
      obtain ⟨k0, v0⟩ := kv
      by_cases h : pyEq n k0 k = true
      · rw [cset, if_pos h] at hp
        rcases List.mem_cons.mp hp with rfl | hp
        · exact Or.inl rfl
        · exact Or.inr (List.mem_cons_of_mem _ hp)
      · rw [cset, if_neg h] at hp
        rcases List.mem_cons.mp hp with rfl | hp
        · exact Or.inr (List.mem_cons_self _ _)
        · rcases ih p hp with h1 | h1
          · exact Or.inl h1
          · exact Or.inr (List.mem_cons_of_mem _ h1)

theorem alookup_aset_self {α : Type} (k : String) (v : α) :
    ∀ l : List (String × α), alookup (aset l k v) k = some v := by
  intro l
  induction l with
  | nil => simp [aset, alookup]
  | cons kv rest ih =>
      by_cases h : kv.1 = k
      · simp [aset, h, alookup]
      · simp [aset, h, alookup, ih]

theorem alookup_aset_ne {α : Type} {k k' : String} (hne : k ≠ k') (v : α) :
    ∀ l : List (String × α), alookup (aset l k v) k' = alookup l k' := by
  intro l
  induction l with
  | nil => simp [aset, alookup, hne]
  | cons kv rest ih =>
      by_cases h : kv.1 = k
      · simp [aset, h, alookup, hne, ih]
      · simp [aset, h, alookup, ih]

/-- `rgInsert` records its own triple, preserves every existing record,
and keeps every group mapping on a single format. -/
theorem rgInsert_spec {n : Nat} (hn : 0 < n) (g : String) (key : String)
    (ot : CVal) (hot : hashable ot = true) (i : Nat) (rg rg' : GroupTable)
    (h : rgInsert n rg (.s g) key ot i = .ok rg') :
    recordedIn n rg' g key ot i ∧
    (∀ g' k' o' i', recordedIn n rg g' k' o' i' → recordedIn n rg' g' k' o' i') ∧
    (singleFormat rg → singleFormat rg') := by
  have hgrefl : pyEq n (CVal.s g) (CVal.s g) = true := pyEq_refl_atom hn (by simp [hashable])
  have hotrefl : pyEq n ot ot = true := pyEq_refl_atom hn hot
  unfold rgInsert at h
  cases hlk : clookup n rg (.s g) with
  | none =>
      rw [hlk] at h
      simp only [Except.ok.injEq] at h
      subst h
      refine ⟨⟨[(key, [(ot, i)])], [(ot, i)],
        clookup_cset_self hgrefl _ rg, by simp [alookup],
        by simp [clookup, hotrefl]⟩, ?_, ?_⟩
      · intro g' k' o' i' ⟨gm', inner', hg', hk', ho'⟩
        by_cases hgg : (CVal.s g) = (CVal.s g')
        · rw [← hgg, hlk] at hg'; exact absurd hg' (by simp)
        · exact ⟨gm', inner', by
            rw [clookup_cset_ne hn (by simp [hashable]) hgg _ rg]; exact hg', hk', ho'⟩
      · intro hsf p hp
        rcases mem_cset p hp with h1 | h1
        · exact ⟨key, [(ot, i)], h1⟩
        · exact hsf p h1
  | some gm =>
      rw [hlk] at h
      dsimp only at h
      cases halk : alookup gm key with
      | none => rw [halk] at h; exact absurd h (by simp)
      | some inner =>
          rw [halk] at h
          dsimp only at h
          cases hio : (clookup n inner ot).isSome with
          | true => rw [hio] at h; exact absurd h (by simp)
          | false =>
              rw [hio] at h
              simp only [Bool.false_eq_true, if_false, Except.ok.injEq] at h
              subst h
              have hinone : clookup n inner ot = none := by
                cases hc : clookup n inner ot
                · rfl
                · rw [hc] at hio; simp at hio
              refine ⟨⟨aset gm key (cset n inner ot i), cset n inner ot i,
                clookup_cset_self hgrefl _ rg, alookup_aset_self key _ gm,
                clookup_cset_self hotrefl i inner⟩, ?_, ?_⟩
              · intro g' k' o' i' ⟨gm', inner', hg', hk', ho'⟩
                by_cases hgg : (CVal.s g) = (CVal.s g')
                · rw [← hgg, hlk] at hg'
                  simp only [Option.some.injEq] at hg'
                  subst hg'
                  have hg2 : g = g' := by injection hgg
                  subst hg2
                  by_cases hkk : key = k'
                  · subst hkk
                    rw [halk] at hk'
                    simp only [Option.some.injEq] at hk'
                    subst hk'
                    by_cases hoo : ot = o'
                    · rw [← hoo, hinone] at ho'
                      exact absurd ho' (by simp)
                    · refine ⟨aset gm key (cset n inner ot i), cset n inner ot i,
                        clookup_cset_self hgrefl _ rg, alookup_aset_self key _ gm, ?_⟩
                      rw [clookup_cset_ne hn hot hoo i inner]
                      exact ho'
                  · refine ⟨aset gm key (cset n inner ot i), inner',
                      clookup_cset_self hgrefl _ rg, ?_, ho'⟩
                    rw [alookup_aset_ne hkk _ gm]
                    exact hk'
                · exact ⟨gm', inner', by
                    rw [clookup_cset_ne hn (by simp [hashable]) hgg _ rg]; exact hg',
                    hk', ho'⟩
              · intro hsf p hp
                rcases mem_cset p hp with h1 | h1
                · obtain ⟨ke, hke, _⟩ := clookup_mem hlk
                  obtain ⟨key0, inner0, hgm⟩ := hsf (ke, gm) hke
                  simp only at hgm
                  subst hgm
                  have hkey0 : key0 = key := by
                    by_cases hk0 : key0 = key
                    · exact hk0
                    · simp [alookup, hk0] at halk
                  subst hkey0
                  exact ⟨key0, cset n inner ot i, by simp [h1, aset]⟩
                · exact hsf p h1
  -- the conjunction is fully assembled in the branches above

/-- Locate an indexed, group-carrying descriptor in the pair list the
reverse-table scan walks. -/
theorem pairsOf_mem {lst : List Dict} {i : Nat} {d : Dict} {gv : CVal}
    (h : lst[i]? = some d) (hg : dlookup d "group" = some gv) :
    (i, gv) ∈ pairsOf lst := by
  have he : lst.enum[i]? = some (i, d) := by
    rw [List.getElem?_enum, h]
    rfl
  have hmem : (i, d) ∈ lst.enum := List.getElem?_mem he
  exact List.mem_filterMap.mpr ⟨(i, d), hmem, by simp [hg]⟩

/-- The tag loop of one descriptor preserves every existing record and
the one-format-per-group shape. -/
theorem rgInsertNames_pres {n : Nat} (hn : 0 < n) (key : String) (ot : CVal)
    (hot : hashable ot = true) (i : Nat) :
    ∀ (gnames : List CVal) (rg rg' : GroupTable),
    rgInsertNames n key ot i gnames rg = .ok rg' →
    (∀ g' k' o' i', recordedIn n rg g' k' o' i' → recordedIn n rg' g' k' o' i') ∧
    (singleFormat rg → singleFormat rg') := by
  intro gnames
  induction gnames with
  | nil =>
      intro rg rg' h
      simp only [rgInsertNames, Except.ok.injEq] at h
      subst h
      exact ⟨fun _ _ _ _ hr => hr, fun hs => hs⟩
  | cons g gs ih =>
      intro rg rg' h
      cases g with
      | b bv => exact ih rg rg' h
      | list l => exact absurd h (by simp [rgInsertNames])
      | dict dd => exact absurd h (by simp [rgInsertNames])
      | s sname =>
          rw [rgInsertNames] at h
          cases hri : rgInsert n rg (.s sname) key ot i with
          | error e => rw [hri] at h; exact absurd h (by simp)
          | ok rg1 =>
              rw [hri] at h
              dsimp only at h
              obtain ⟨_, hpres, hsf⟩ := rgInsert_spec hn sname key ot hot i rg rg1 hri
              obtain ⟨hpres2, hsf2⟩ := ih rg1 rg' h
              exact ⟨fun g' k' o' i' hr => hpres2 _ _ _ _ (hpres _ _ _ _ hr),
                     fun hs => hsf2 (hsf hs)⟩

/-- The tag loop records every string group name of the descriptor. -/
theorem rgInsertNames_complete {n : Nat} (hn : 0 < n) (key : String) (ot : CVal)
    (hot : hashable ot = true) (i : Nat) :
    ∀ (gnames : List CVal) (rg rg' : GroupTable) (g : String),
    CVal.s g ∈ gnames →
    rgInsertNames n key ot i gnames rg = .ok rg' →
    recordedIn n rg' g key ot i := by
  intro gnames
  induction gnames with
  | nil => intro rg rg' g hmem h; simp at hmem
  | cons g0 gs ih =>
      intro rg rg' g hmem h
      rcases List.mem_cons.mp hmem with heq | hmem'
      · subst heq
        rw [rgInsertNames] at h
        cases hri : rgInsert n rg (.s g) key ot i with
        | error e => rw [hri] at h; exact absurd h (by simp)
        | ok rg1 =>
            rw [hri] at h
            dsimp only at h
            obtain ⟨hrec, _, _⟩ := rgInsert_spec hn g key ot hot i rg rg1 hri
            exact (rgInsertNames_pres hn key ot hot i gs rg1 rg' h).1 _ _ _ _ hrec
      · cases g0 with
        | b bv => exact ih rg rg' g hmem' h
        | list l => exact absurd h (by simp [rgInsertNames])
        | dict dd => exact absurd h (by simp [rgInsertNames])
        | s sname =>
            rw [rgInsertNames] at h
            cases hri : rgInsert n rg (.s sname) key ot i with
            | error e => rw [hri] at h; exact absurd h (by simp)
            | ok rg1 =>
                rw [hri] at h
                dsimp only at h
                exact ih rg1 rg' g hmem' h

/-- One `(format, object_type)` pair list: preservation and shape. -/
theorem buildReverseList_pres {n : Nat} (hn : 0 < n) (key : String) (ot : CVal)
    (hot : hashable ot = true) :
    ∀ (pairs : List (Nat × CVal)) (rg rg' : GroupTable),
    buildReverseList n key ot pairs rg = .ok rg' →
    (∀ g' k' o' i', recordedIn n rg g' k' o' i' → recordedIn n rg' g' k' o' i') ∧
    (singleFormat rg → singleFormat rg') := by
  intro pairs
  induction pairs with
  | nil =>
      intro rg rg' h
      simp only [buildReverseList, Except.ok.injEq] at h
      subst h
      exact ⟨fun _ _ _ _ hr => hr, fun hs => hs⟩
  | cons p rest ih =>
      intro rg rg' h
      obtain ⟨i, gv⟩ := p
      have hstep : buildReverseList n key ot ((i, gv) :: rest) rg =
          (match rgInsertNames n key ot i (tagNamesOf gv) rg with
           | .error err => .error err
           | .ok rg1 => buildReverseList n key ot rest rg1) := rfl
      rw [hstep] at h
      cases hri : rgInsertNames n key ot i (tagNamesOf gv) rg with
      | error e => rw [hri] at h; exact absurd h (by simp)
      | ok rg1 =>
          rw [hri] at h
          dsimp only at h
          obtain ⟨hpres, hsf⟩ := rgInsertNames_pres hn key ot hot i _ rg rg1 hri
          obtain ⟨hpres2, hsf2⟩ := ih rg1 rg' h
          exact ⟨fun g' k' o' i' hr => hpres2 _ _ _ _ (hpres _ _ _ _ hr),
                 fun hs => hsf2 (hsf hs)⟩

/-- One `(format, object_type)` pair list: completeness. -/
theorem buildReverseList_complete {n : Nat} (hn : 0 < n) (key : String)
    (ot : CVal) (hot : hashable ot = true) :
    ∀ (pairs : List (Nat × CVal)) (rg rg' : GroupTable) (i : Nat) (gv : CVal)
    (g : String), (i, gv) ∈ pairs → CVal.s g ∈ tagNamesOf gv →
    buildReverseList n key ot pairs rg = .ok rg' →
    recordedIn n rg' g key ot i := by
  intro pairs
  induction pairs with
  | nil => intro rg rg' i gv g hmem _ _; simp at hmem
  | cons p rest ih =>
      intro rg rg' i gv g hmem htag h
      obtain ⟨i0, gv0⟩ := p
      have hstep : buildReverseList n key ot ((i0, gv0) :: rest) rg =
          (match rgInsertNames n key ot i0 (tagNamesOf gv0) rg with
           | .error err => .error err
           | .ok rg1 => buildReverseList n key ot rest rg1) := rfl
      rw [hstep] at h
      cases hri : rgInsertNames n key ot i0 (tagNamesOf gv0) rg with
      | error e => rw [hri] at h; exact absurd h (by simp)
      | ok rg1 =>
          rw [hri] at h
          dsimp only at h
          rcases List.mem_cons.mp hmem with heq | hmem'
          · obtain ⟨h1, h2⟩ := Prod.mk.injEq .. ▸ heq
            subst h1; subst h2
            have hrec := rgInsertNames_complete hn key ot hot i _ rg rg1 g htag hri
            exact (buildReverseList_pres hn key ot hot rest rg1 rg' h).1 _ _ _ _ hrec
          · exact ih rg1 rg' i gv g hmem' htag h

/-- One format's object-type map: preservation and shape. -/
theorem buildReverseObj_pres {n : Nat} (hn : 0 < n) (key : String) :
    ∀ (objmap : List (CVal × List Dict)), (∀ q ∈ objmap, hashable q.1 = true) →
    ∀ (rg rg' : GroupTable), buildReverseObj n key objmap rg = .ok rg' →
    (∀ g' k' o' i', recordedIn n rg g' k' o' i' → recordedIn n rg' g' k' o' i') ∧
    (singleFormat rg → singleFormat rg') := by
  intro objmap
  induction objmap with
  | nil =>
      intro _ rg rg' h
      simp only [buildReverseObj, Except.ok.injEq] at h
      subst h
      exact ⟨fun _ _ _ _ hr => hr, fun hs => hs⟩
  | cons q rest ih =>
      intro hh rg rg' h
      obtain ⟨ot, lst⟩ := q
      rw [buildReverseObj] at h
      cases hri : buildReverseList n key ot (pairsOf lst) rg with
      | error e => rw [hri] at h; exact absurd h (by simp)
      | ok rg1 =>
          rw [hri] at h
          dsimp only at h
          have hot : hashable ot = true := hh (ot, lst) (List.mem_cons_self _ _)
          obtain ⟨hpres, hsf⟩ := buildReverseList_pres hn key ot hot _ rg rg1 hri
          obtain ⟨hpres2, hsf2⟩ :=
            ih (fun q hq => hh q (List.mem_cons_of_mem _ hq)) rg1 rg' h
          exact ⟨fun g' k' o' i' hr => hpres2 _ _ _ _ (hpres _ _ _ _ hr),
                 fun hs => hsf2 (hsf hs)⟩

/-- One format's object-type map: completeness. -/
theorem buildReverseObj_complete {n : Nat} (hn : 0 < n) (key : String) :
    ∀ (objmap : List (CVal × List Dict)), (∀ q ∈ objmap, hashable q.1 = true) →
    ∀ (rg rg' : GroupTable) (ot : CVal) (lst : List Dict) (i : Nat) (gv : CVal)
    (g : String), (ot, lst) ∈ objmap → (i, gv) ∈ pairsOf lst →
    CVal.s g ∈ tagNamesOf gv →
    buildReverseObj n key objmap rg = .ok rg' →
    recordedIn n rg' g key ot i := by
  intro objmap
  induction objmap with
  | nil => intro _ rg rg' ot lst i gv g hmem _ _ _; simp at hmem
  | cons q rest ih =>
      intro hh rg rg' ot lst i gv g hmem hpair htag h
      obtain ⟨ot0, lst0⟩ := q
      rw [buildReverseObj] at h
      cases hri : buildReverseList n key ot0 (pairsOf lst0) rg with
      | error e => rw [hri] at h; exact absurd h (by simp)
      | ok rg1 =>
          rw [hri] at h
          dsimp only at h
          rcases List.mem_cons.mp hmem with heq | hmem'
          · obtain ⟨h1, h2⟩ := Prod.mk.injEq .. ▸ heq
            subst h1; subst h2
            have hot : hashable ot = true := hh (ot, lst) (List.mem_cons_self _ _)
            have hrec := buildReverseList_complete hn key ot hot (pairsOf lst)
              rg rg1 i gv g hpair htag hri
            exact (buildReverseObj_pres hn key rest
              (fun q hq => hh q (List.mem_cons_of_mem _ hq)) rg1 rg' h).1 _ _ _ _ hrec
          · exact ih (fun q hq => hh q (List.mem_cons_of_mem _ hq))
              rg1 rg' ot lst i gv g hmem' hpair htag h

/-- Whole-table scan: preservation and shape. -/
theorem buildReverse_pres {n : Nat} (hn : 0 < n) :
    ∀ (tbl : Table), (∀ p ∈ tbl, ∀ q ∈ p.2, hashable q.1 = true) →
    ∀ (rg rg' : GroupTable), buildReverse n tbl rg = .ok rg' →
    (∀ g' k' o' i', recordedIn n rg g' k' o' i' → recordedIn n rg' g' k' o' i') ∧
    (singleFormat rg → singleFormat rg') := by
  intro tbl
  induction tbl with
  | nil =>
      intro _ rg rg' h
      simp only [buildReverse, Except.ok.injEq] at h
      subst h
      exact ⟨fun _ _ _ _ hr => hr, fun hs => hs⟩
  | cons p rest ih =>
      intro hh rg rg' h
      obtain ⟨key, objmap⟩ := p
      rw [buildReverse] at h
      cases hri : buildReverseObj n key objmap rg with
      | error e => rw [hri] at h; exact absurd h (by simp)
      | ok rg1 =>
          rw [hri] at h
          dsimp only at h
          obtain ⟨hpres, hsf⟩ := buildReverseObj_pres hn key objmap
            (hh (key, objmap) (List.mem_cons_self _ _)) rg rg1 hri
          obtain ⟨hpres2, hsf2⟩ :=
            ih (fun p hp => hh p (List.mem_cons_of_mem _ hp)) rg1 rg' h
          exact ⟨fun g' k' o' i' hr => hpres2 _ _ _ _ (hpres _ _ _ _ hr),
                 fun hs => hsf2 (hsf hs)⟩

/-- Whole-table scan: every tagged descriptor ends up recorded. -/
theorem buildReverse_complete {n : Nat} (hn : 0 < n) :
    ∀ (tbl : Table), (∀ p ∈ tbl, ∀ q ∈ p.2, hashable q.1 = true) →
    ∀ (rg rg' : GroupTable) (key : String) (objmap : List (CVal × List Dict))
    (ot : CVal) (lst : List Dict) (i : Nat) (gv : CVal) (g : String),
    (key, objmap) ∈ tbl → (ot, lst) ∈ objmap → (i, gv) ∈ pairsOf lst →
    CVal.s g ∈ tagNamesOf gv →
    buildReverse n tbl rg = .ok rg' →
    recordedIn n rg' g key ot i := by
  intro tbl
  induction tbl with
  | nil => intro _ rg rg' key objmap ot lst i gv g hmem _ _ _ _; simp at hmem
  | cons p rest ih =>
      intro hh rg rg' key objmap ot lst i gv g hmem hot' hpair htag h
      obtain ⟨key0, objmap0⟩ := p
      rw [buildReverse] at h
      cases hri : buildReverseObj n key0 objmap0 rg with
      | error e => rw [hri] at h; exact absurd h (by simp)
      | ok rg1 =>
          rw [hri] at h
          dsimp only at h
          rcases List.mem_cons.mp hmem with heq | hmem'
          · obtain ⟨h1, h2⟩ := Prod.mk.injEq .. ▸ heq
            subst h1; subst h2
            have hhm : ∀ q ∈ objmap, hashable q.1 = true :=
              hh (key, objmap) (List.mem_cons_self _ _)
            have hrec := buildReverseObj_complete hn key objmap hhm
              rg rg1 ot lst i gv g hot' hpair htag hri
            exact (buildReverse_pres hn rest
              (fun p hp => hh p (List.mem_cons_of_mem _ hp)) rg1 rg' h).1 _ _ _ _ hrec
          · exact ih (fun p hp => hh p (List.mem_cons_of_mem _ hp))
              rg1 rg' key objmap ot lst i gv g hmem' hot' hpair htag h

/-- C7: on a file table whose object-type keys are all hashable, a
successful reverse-group-table construction (data_handler.py:744-772)
enforces the conflict invariant: any two descriptors carrying the same
group tag sit under the same format key, and if they also share the
object type they are the same descriptor index — two formats for one
group, or two indices for one (group, format, object_type), would have
raised the GroupConflict error instead. -/
theorem C7_group_conflicts (n : Nat) (hn : 0 < n) (tbl : Table)
    (hh : ∀ p ∈ tbl, ∀ q ∈ p.2, hashable q.1 = true)
    (rg : GroupTable) (hbr : buildReverse n tbl [] = .ok rg)
    (g key1 key2 : String) (ot1 ot2 : CVal) (i1 i2 : Nat)
    (h1 : taggedAt n tbl key1 ot1 i1 g) (h2 : taggedAt n tbl key2 ot2 i2 g) :
    key1 = key2 ∧ (ot1 = ot2 → i1 = i2) := by
  have hsf : singleFormat rg :=
    (buildReverse_pres hn tbl hh [] rg hbr).2 (fun p hp => by simp at hp)
  have record : ∀ key ot i, taggedAt n tbl key ot i g → recordedIn n rg g key ot i := by
    rintro key ot i ⟨objmap, lst, d, gv, ha, hc, hi, hgv, htag⟩
    have hmt : (key, objmap) ∈ tbl := alookup_mem ha
    obtain ⟨ke, hkem, hkeq⟩ := clookup_mem hc
    have hkeh : hashable ke = true := hh (key, objmap) hmt (ke, lst) hkem
    have hkeot : ke = ot := pyEq_atom_eq hkeh hkeq
    subst hkeot
    exact buildReverse_complete hn tbl hh [] rg key objmap ke lst i gv g
      hmt hkem (pairsOf_mem hi hgv) htag hbr
  obtain ⟨gm1, inner1, hg1, hk1, ho1⟩ := record key1 ot1 i1 h1
  obtain ⟨gm2, inner2, hg2, hk2, ho2⟩ := record key2 ot2 i2 h2
  rw [hg1] at hg2
  simp only [Option.some.injEq] at hg2
  subst hg2
  obtain ⟨ke, hkem, _⟩ := clookup_mem hg1
  obtain ⟨key0, inner0, hgm⟩ := hsf (ke, gm1) hkem
  simp only at hgm
  subst hgm
  have e1 : key0 = key1 ∧ inner0 = inner1 := by
    by_cases hk : key0 = key1
    · refine ⟨hk, ?_⟩
      rw [alookup, if_pos hk] at hk1
      simp only [Option.some.injEq] at hk1
      exact hk1
    · rw [alookup, if_neg hk] at hk1
      simp [alookup] at hk1
  have e2 : key0 = key2 ∧ inner0 = inner2 := by
    by_cases hk : key0 = key2
    · refine ⟨hk, ?_⟩
      rw [alookup, if_pos hk] at hk2
      simp only [Option.some.injEq] at hk2
      exact hk2
    · rw [alookup, if_neg hk] at hk2
      simp [alookup] at hk2
  refine ⟨e1.1 ▸ e2.1, fun hoo => ?_⟩
  rw [← e1.2] at ho1
  rw [← e2.2, ← hoo] at ho2
  rw [ho1] at ho2
  simp only [Option.some.injEq] at ho2
  exact ho2

/-- Witness for C7 on a concrete table: one format with a galaxy and a
star descriptor both tagged `g0`; construction succeeds and both
descriptors indeed sit under the same format key. -/
theorem C7_group_conflicts_witness :
    ("single-CCD-catalog" : String) = "single-CCD-catalog" ∧
    (CVal.s "galaxy" = CVal.s "star" → (0 : Nat) = 0) :=
  C7_group_conflicts 4 (by decide)
    [("single-CCD-catalog",
      [(.s "galaxy", [[("name", .s "a.fits"), ("group", .s "g0")]]),
       (.s "star", [[("name", .s "b.fits"), ("group", .s "g0")]])])]
    (by simp [hashable]; rintro a b (⟨rfl, _⟩ | ⟨rfl, _⟩) <;> rfl)
    [(.s "g0", [("single-CCD-catalog", [(.s "galaxy", 0), (.s "star", 0)])])]
    rfl
    "g0" "single-CCD-catalog" "single-CCD-catalog" (.s "galaxy") (.s "star") 0 0
    ⟨_, _, _, _, rfl, rfl, rfl, rfl, List.mem_singleton.mpr rfl⟩
    ⟨_, _, _, _, rfl, rfl, rfl, rfl, List.mem_singleton.mpr rfl⟩

/-! ## Claim C1 — positional count-matched grouping -/

theorem setGroupAt_length (rl : List Dict) (i c : Nat) :
    (setGroupAt rl i c).length = rl.length := by
  unfold setGroupAt
  cases h : rl[i]? with
  | none => rfl
  | some d => simp

theorem setGroupAt_ne {i i' : Nat} (h : i ≠ i') (rl : List Dict) (c : Nat) :
    (setGroupAt rl i c)[i']? = rl[i']? := by
  unfold setGroupAt
  cases hd : rl[i]? with
  | none => rfl
  | some d => simp [List.getElem?_set_ne h]

theorem setGroupAt_self (rl : List Dict) (i c : Nat) :
    (setGroupAt rl i c)[i]? = (rl[i]?).map
      (fun d => dset d "group" (.s (groupNameStr c))) := by
  unfold setGroupAt
  cases hd : rl[i]? with
  | none => simp [hd]
  | some d =>
      have hi : i < rl.length := by
        by_contra hge
        rw [List.getElem?_eq_none (Nat.le_of_not_lt hge)] at hd
        cases hd
      simp [List.getElem?_set_self hi, hd]

theorem assignIdxs_snd : ∀ (idxs : List Nat) (rl : List Dict) (curr : Nat),
    (assignIdxs idxs rl curr).2 = curr + idxs.length := by
  intro idxs
  induction idxs with
  | nil => intro rl curr; simp [assignIdxs]
  | cons i rest ih =>
      intro rl curr
      rw [assignIdxs, ih, List.length_cons]
      omega

theorem assignIdxs_length : ∀ (idxs : List Nat) (rl : List Dict) (curr : Nat),
    (assignIdxs idxs rl curr).1.length = rl.length := by
  intro idxs
  induction idxs with
  | nil => intro rl curr; rfl
  | cons i rest ih =>
      intro rl curr
      rw [assignIdxs, ih, setGroupAt_length]

theorem assignIdxs_other : ∀ (idxs : List Nat) {i : Nat}, i ∉ idxs →
    ∀ (rl : List Dict) (curr : Nat), (assignIdxs idxs rl curr).1[i]? = rl[i]? := by
  intro idxs
  induction idxs with
  | nil => intro i _ rl curr; rfl
  | cons i0 rest ih =>
      intro i hmem rl curr
      rw [assignIdxs, ih (fun hr => hmem (List.mem_cons_of_mem _ hr)),
          setGroupAt_ne (fun he => hmem (List.mem_cons.mpr (Or.inl he.symm)))]

theorem assignIdxs_hit : ∀ (idxs : List Nat), idxs.Nodup →
    ∀ {j i : Nat}, idxs[j]? = some i →
    ∀ (rl : List Dict) (curr : Nat),
    (assignIdxs idxs rl curr).1[i]? = (rl[i]?).map
      (fun d => dset d "group" (.s (groupNameStr (curr + j)))) := by
  intro idxs
  induction idxs with
  | nil => intro _ j i h; simp at h
  | cons i0 rest ih =>
      intro hnd j i h rl curr
      obtain ⟨hni0, hndrest⟩ := List.nodup_cons.mp hnd
      match j with
      | 0 =>
          simp only [List.getElem?_cons_zero, Option.some.injEq] at h
          subst h
          rw [assignIdxs, assignIdxs_other rest hni0 _ _, setGroupAt_self]
          simp
      | j' + 1 =>
          simp only [List.getElem?_cons_succ] at h
          have hi : i ∈ rest := List.getElem?_mem h
          have hne : i0 ≠ i := fun he => hni0 (by rw [he]; exact hi)
          rw [assignIdxs, ih hndrest h _ _, setGroupAt_ne hne]
          have harith : curr + 1 + j' = curr + (j' + 1) := by omega
          rw [harith]

theorem assignEntry_snd {L : Nat} : ∀ (ents : List (CVal × List Nat)),
    (∀ e ∈ ents, e.2.length = L) → ents ≠ [] →
    ∀ (rl : List Dict) (base prev : Nat),
    (assignEntry ents rl base prev).2 = base + L := by
  intro ents
  induction ents with
  | nil => intro _ hne; exact absurd rfl hne
  | cons e rest ih =>
      intro hL _ rl base prev
      obtain ⟨ot, idxs⟩ := e
      rcases hA : assignIdxs idxs rl base with ⟨rl2, curr⟩
      rw [assignEntry, hA]
      cases rest with
      | nil =>
          have hs := assignIdxs_snd idxs rl base
          rw [hA] at hs
          have hLL : idxs.length = L := hL (ot, idxs) (List.mem_cons_self _ _)
          dsimp only at hs ⊢
          rw [assignEntry]
          dsimp only
          rw [hs, hLL]
      | cons e2 rest2 =>
          exact ih (fun e he => hL e (List.mem_cons_of_mem _ he)) (by simp) rl2 base curr

theorem assignEntry_length : ∀ (ents : List (CVal × List Nat)) (rl : List Dict)
    (base prev : Nat), (assignEntry ents rl base prev).1.length = rl.length := by
  intro ents
  induction ents with
  | nil => intro rl base prev; rfl
  | cons e rest ih =>
      intro rl base prev
      obtain ⟨ot, idxs⟩ := e
      rcases hA : assignIdxs idxs rl base with ⟨rl2, curr⟩
      rw [assignEntry, hA]
      dsimp only
      rw [ih rl2 base curr]
      have hl := assignIdxs_length idxs rl base
      rw [hA] at hl
      exact hl

theorem assignEntry_other : ∀ (ents : List (CVal × List Nat)) {i : Nat},
    (∀ e ∈ ents, i ∉ e.2) → ∀ (rl : List Dict) (base prev : Nat),
    (assignEntry ents rl base prev).1[i]? = rl[i]? := by
  intro ents
  induction ents with
  | nil => intro i _ rl base prev; rfl
  | cons e rest ih =>
      intro i hni rl base prev
      obtain ⟨ot, idxs⟩ := e
      rcases hA : assignIdxs idxs rl base with ⟨rl2, curr⟩
      rw [assignEntry, hA]
      dsimp only
      rw [ih (fun e he => hni e (List.mem_cons_of_mem _ he)) rl2 base curr]
      have h0 := assignIdxs_other idxs (hni (ot, idxs) (List.mem_cons_self _ _)) rl base
      rw [hA] at h0
      exact h0

theorem assignEntry_hit : ∀ (ents : List (CVal × List Nat)),
    ((ents.map (fun e => e.2)).join).Nodup →
    ∀ {ot : CVal} {idxs : List Nat} {j i : Nat},
    (ot, idxs) ∈ ents → idxs[j]? = some i →
    ∀ (rl : List Dict) (base prev : Nat),
    (assignEntry ents rl base prev).1[i]? = (rl[i]?).map
      (fun d => dset d "group" (.s (groupNameStr (base + j)))) := by
  intro ents
  induction ents with
  | nil => intro _ ot idxs j i hmem; simp at hmem
  | cons e rest ih =>
      intro hnd ot idxs j i hmem hj rl base prev
      obtain ⟨ot0, idxs0⟩ := e
      have hjoin : ((((ot0, idxs0) :: rest).map (fun e => e.2)).join) =
          idxs0 ++ ((rest.map (fun e => e.2)).join) := by simp
      rw [hjoin] at hnd
      obtain ⟨hnd0, hndrest, hdisj⟩ := List.nodup_append.mp hnd
      rcases hA : assignIdxs idxs0 rl base with ⟨rl2, curr⟩
      rw [assignEntry, hA]
      dsimp only
      rcases List.mem_cons.mp hmem with heq | hmem'
      · obtain ⟨h1, h2⟩ := Prod.mk.injEq .. ▸ heq
        subst h1; subst h2
        have hiin : i ∈ idxs := List.getElem?_mem hj
        have hset := assignIdxs_hit idxs hnd0 hj rl base
        rw [hA] at hset
        have hrest := assignEntry_other rest
          (fun e he hmem2 => hdisj hiin
            (List.mem_join.mpr ⟨e.2, List.mem_map.mpr ⟨e, he, rfl⟩, hmem2⟩))
          rl2 base curr
        rw [hrest]
        exact hset
      · have hijoin : i ∈ ((rest.map (fun e => e.2)).join) :=
          List.mem_join.mpr ⟨idxs, List.mem_map.mpr ⟨(ot, idxs), hmem', rfl⟩,
            List.getElem?_mem hj⟩
        have hni0 : i ∉ idxs0 := fun hi0 => hdisj hi0 hijoin
        have h0 := assignIdxs_other idxs0 hni0 rl base
        rw [hA] at h0
        rw [ih hndrest hmem' hj rl2 base curr, h0]

theorem allEqNat_head : ∀ {lens : List Nat}, allEqNat lens = true →
    ∀ x ∈ lens, x = lens.headD 0 := by
  intro lens h x hx
  cases lens with
  | nil => simp at hx
  | cons y ys =>
      rcases List.mem_cons.mp hx with rfl | hx'
      · rfl
      · rw [allEqNat] at h
        simpa using List.all_eq_true.mp h x hx'

/-- C1: positional count-matched grouping (data_handler.py:608-624, phase 2
of `_group` on one format's index table): synthesized group tags are
assigned iff more than one object type is recorded under the format and
all per-object-type index lists have equal length; in that case the run
succeeds, the return list keeps its length, the j-th recorded descriptor
of EVERY object type receives the same freshly minted name
`_stile_group_(nn + j)` — first-with-first pairing, monotonically
increasing from the incoming counter `nn`, which advances to `nn + L` so
later names never collide — unrecorded descriptors are untouched, and
with unequal lengths (or a lone object type) nothing changes and no error
is raised.  The index lists recorded by phase 1 are pairwise disjoint and
duplicate-free, which the `Nodup` hypothesis captures. -/
theorem C1_positional_grouping (key : String) (ents : List (CVal × List Nat))
    (rl : List Dict) (nn : Nat)
    (hnd : ((ents.map (fun e => e.2)).join).Nodup) :
    (¬(1 < ents.length ∧ allEqNat (ents.map (fun e => e.2.length)) = true) →
      groupPhase2 [(key, ents)] rl nn = .ok (rl, nn)) ∧
    (1 < ents.length ∧ allEqNat (ents.map (fun e => e.2.length)) = true →
      ∃ rl', groupPhase2 [(key, ents)] rl nn =
          .ok (rl', nn + ((ents.map (fun e => e.2.length)).headD 0)) ∧
        rl'.length = rl.length ∧
        (∀ ot idxs j i, (ot, idxs) ∈ ents → idxs[j]? = some i →
          rl'[i]? = (rl[i]?).map
            (fun d => dset d "group" (.s (groupNameStr (nn + j))))) ∧
        (∀ i, i ∉ ((ents.map (fun e => e.2)).join) → rl'[i]? = rl[i]?)) := by
  constructor
  · intro hneg
    rw [groupPhase2]
    cases hE : ents.isEmpty with
    | true => rfl
    | false =>
        rw [if_neg (by simp)]
        dsimp only
        by_cases hlen : 1 < ents.length
        · have hae : ¬(allEqNat (ents.map (fun e => e.2.length)) = true) :=
            fun hA => hneg ⟨hlen, hA⟩
          rw [if_pos (by simpa using hlen), if_neg hae]
          rfl
        · rw [if_neg (by simpa using hlen)]
          rfl
  · intro hpos
    obtain ⟨hlen, hallEq⟩ := hpos
    have hne : ents ≠ [] := by
      intro h
      rw [h] at hlen
      simp at hlen
    have hEmp : ents.isEmpty = false := by
      cases ents with
      | nil => exact absurd rfl hne
      | cons e rest => rfl
    have hLall : ∀ e ∈ ents, e.2.length = ((ents.map (fun e => e.2.length)).headD 0) :=
      fun e he => allEqNat_head hallEq _ (List.mem_map.mpr ⟨e, he, rfl⟩)
    rcases hA : assignEntry ents rl nn nn with ⟨rl2, curr⟩
    have hcurr : curr = nn + ((ents.map (fun e => e.2.length)).headD 0) := by
      have hs := assignEntry_snd ents hLall hne rl nn nn
      rw [hA] at hs
      exact hs
    refine ⟨rl2, ?_, ?_, ?_, ?_⟩
    · rw [groupPhase2, if_neg (by simp [hEmp])]
      dsimp only
      rw [if_pos (by simpa using hlen), if_pos hallEq, hA]
      dsimp only
      rw [hcurr]
      have hchk : (nn + ((ents.map (fun e => e.2.length)).headD 0) - nn ==
          (ents.map (fun e => e.2.length)).headD 0) = true := by
        simp
      rw [if_pos hchk]
      rfl
    · have hl := assignEntry_length ents rl nn nn
      rw [hA] at hl
      exact hl
    · intro ot idxs j i hmem hj
      have hh := assignEntry_hit ents hnd hmem hj rl nn nn
      rw [hA] at hh
      exact hh
    · intro i hi
      have ho := assignEntry_other ents
        (fun e he hmem2 => hi
          (List.mem_join.mpr ⟨e.2, List.mem_map.mpr ⟨e, he, rfl⟩, hmem2⟩))
        rl nn nn
      rw [hA] at ho
      exact ho

/-- Witness for C1: two object types (`star`, `galaxy`) under one format,
each with two recorded descriptors; grouping fires and pairs them
first-with-first as `_stile_group_5` and `_stile_group_6`. -/
theorem C1_positional_grouping_witness :
    ∃ rl', groupPhase2 [("single-CCD-catalog",
        [(CVal.s "star", [0, 1]), (CVal.s "galaxy", [2, 3])])]
        [[("name", CVal.s "s1")], [("name", CVal.s "s2")],
         [("name", CVal.s "g1")], [("name", CVal.s "g2")]] 5 = .ok (rl', 7) ∧
      rl'.length = 4 ∧
      (∀ ot idxs j i,
        (ot, idxs) ∈ [(CVal.s "star", [0, 1]), (CVal.s "galaxy", [2, 3])] →
        idxs[j]? = some i →
        rl'[i]? = (([[("name", CVal.s "s1")], [("name", CVal.s "s2")],
          [("name", CVal.s "g1")], [("name", CVal.s "g2")]] : List Dict)[i]?).map
          (fun d => dset d "group" (.s (groupNameStr (5 + j))))) ∧
      (∀ i, i ∉ ([[0, 1], [2, 3]] : List (List Nat)).join →
        rl'[i]? = ([[("name", CVal.s "s1")], [("name", CVal.s "s2")],
          [("name", CVal.s "g1")], [("name", CVal.s "g2")]] : List Dict)[i]?) :=
  (C1_positional_grouping "single-CCD-catalog"
    [(CVal.s "star", [0, 1]), (CVal.s "galaxy", [2, 3])]
    [[("name", CVal.s "s1")], [("name", CVal.s "s2")],
     [("name", CVal.s "g1")], [("name", CVal.s "g2")]] 5 (by decide)).2
    ⟨by decide, rfl⟩

/-! ## Claim C6 — alias-group collapse -/

theorem pyEq_b_s (n : Nat) (x : Bool) (y : String) :
    pyEq n (.b x) (.s y) = false := by
  cases n <;> rfl

theorem pyEq_atom_false {n : Nat} {a b : CVal} (ha : hashable a = true)
    (hne : a ≠ b) : pyEq n a b = false := by
  cases h : pyEq n a b
  · rfl
  · exact absurd (pyEq_atom_eq ha h) hne

theorem listRemoveFirst_sublist (n : Nat) (g : CVal) :
    ∀ l : List CVal, List.Sublist (listRemoveFirst n g l) l := by
  intro l
  induction l with
  | nil => exact List.Sublist.refl _
  | cons x xs ih =>
      rw [listRemoveFirst]
      by_cases h : pyEq n x g = true
      · rw [if_pos h]
        exact (List.Sublist.refl xs).cons x
      · rw [if_neg h]
        exact ih.cons₂ x

theorem countP_listRemoveFirst {n : Nat} {g : CVal} :
    ∀ l : List CVal, l.countP (fun x => pyEq n x g) ≤ 1 →
    (listRemoveFirst n g l).countP (fun x => pyEq n x g) = 0 := by
  intro l
  induction l with
  | nil => intro _; rfl
  | cons x xs ih =>
      intro hle
      rw [listRemoveFirst]
      by_cases h : pyEq n x g = true
      · rw [if_pos h]
        rw [List.countP_cons_of_pos (fun x => pyEq n x g) xs h] at hle
        omega
      · rw [if_neg h, List.countP_cons_of_neg (fun x => pyEq n x g) _ h]
        rw [List.countP_cons_of_neg (fun x => pyEq n x g) xs h] at hle
        exact ih hle

theorem tagCount_dset_btrue (n : Nat) (gname : String) (d : Dict) :
    tagCount n (.s gname) (dset d "group" (.b true)) = 0 := by
  unfold tagCount
  rw [dlookup_dset_self]
  dsimp only
  rw [pyEq_b_s]
  rfl

theorem tagCount_dset_list (n : Nat) (gname : String) (d : Dict) (l : List CVal) :
    tagCount n (.s gname) (dset d "group" (.list l)) =
    l.countP (fun x => pyEq n x (.s gname)) := by
  unfold tagCount
  rw [dlookup_dset_self]

theorem tagCount_removeGroupDesc_le (n : Nat) (gname : String) (g' : CVal)
    (d : Dict) :
    tagCount n (.s gname) (removeGroupDesc n g' d) ≤ tagCount n (.s gname) d := by
  unfold removeGroupDesc
  cases hd : dlookup d "group" with
  | none => exact Nat.le_refl _
  | some gv =>
      cases gv with
      | list l =>
          dsimp only
          rw [tagCount_dset_list]
          have hrhs : tagCount n (.s gname) d =
              l.countP (fun x => pyEq n x (.s gname)) := by
            unfold tagCount
            rw [hd]
          rw [hrhs]
          exact List.Sublist.countP_le _ (listRemoveFirst_sublist n g' l)
      | b bv =>
          dsimp only
          by_cases h : pyEq n (.b bv) g' = true
          · rw [if_pos h, tagCount_dset_btrue]
            exact Nat.zero_le _
          · rw [if_neg h]
      | s sv =>
          dsimp only
          by_cases h : pyEq n (.s sv) g' = true
          · rw [if_pos h, tagCount_dset_btrue]
            exact Nat.zero_le _
          · rw [if_neg h]
      | dict dd =>
          dsimp only
          by_cases h : pyEq n (.dict dd) g' = true
          · rw [if_pos h, tagCount_dset_btrue]
            exact Nat.zero_le _
          · rw [if_neg h]

theorem tagCount_removeGroupDesc_self (n : Nat) (gname : String) (d : Dict)
    (h : tagCount n (.s gname) d ≤ 1) :
    tagCount n (.s gname) (removeGroupDesc n (.s gname) d) = 0 := by
  unfold removeGroupDesc
  cases hd : dlookup d "group" with
  | none =>
      unfold tagCount
      rw [hd]
  | some gv =>
      cases gv with
      | list l =>
          dsimp only
          rw [tagCount_dset_list]
          apply countP_listRemoveFirst
          unfold tagCount at h
          rw [hd] at h
          exact h
      | b bv =>
          dsimp only
          by_cases hp : pyEq n (.b bv) (.s gname) = true
          · rw [pyEq_b_s] at hp; cases hp
          · have hb : pyEq n (.b bv) (.s gname) = false := pyEq_b_s n bv gname
            by_cases hq : pyEq n (.b bv) (.s gname) = true
            · rw [hb] at hq; cases hq
            · rw [if_neg hq]
              unfold tagCount
              rw [hd]
              dsimp only
              rw [if_neg hq]
      | s sv =>
          dsimp only
          by_cases hp : pyEq n (.s sv) (.s gname) = true
          · rw [if_pos hp, tagCount_dset_btrue]
          · rw [if_neg hp]
            unfold tagCount
            rw [hd]
            dsimp only
            rw [if_neg hp]
      | dict dd =>
          dsimp only
          by_cases hp : pyEq n (.dict dd) (.s gname) = true
          · rw [if_pos hp, tagCount_dset_btrue]
          · rw [if_neg hp]
            unfold tagCount
            rw [hd]
            dsimp only
            rw [if_neg hp]

theorem removeGroup_strips (n : Nat) (gname : String) (tbl : Table)
    (h : ∀ p ∈ tbl, ∀ q ∈ p.2, ∀ d ∈ q.2, tagCount n (.s gname) d ≤ 1) :
    strippedTbl n (.s gname) (removeGroup n (.s gname) tbl) := by
  intro p hp q hq d hd
  unfold removeGroup at hp
  obtain ⟨p0, hp0, rfl⟩ := List.mem_map.mp hp
  obtain ⟨q0, hq0, rfl⟩ := List.mem_map.mp hq
  obtain ⟨d0, hd0, rfl⟩ := List.mem_map.mp hd
  exact tagCount_removeGroupDesc_self n gname d0 (h p0 hp0 q0 hq0 d0 hd0)

theorem removeGroup_mono (n : Nat) (gname : String) (g' : CVal) (tbl : Table)
    (h : ∀ p ∈ tbl, ∀ q ∈ p.2, ∀ d ∈ q.2, tagCount n (.s gname) d ≤ 1) :
    ∀ p ∈ removeGroup n g' tbl, ∀ q ∈ p.2, ∀ d ∈ q.2,
    tagCount n (.s gname) d ≤ 1 := by
  intro p hp q hq d hd
  unfold removeGroup at hp
  obtain ⟨p0, hp0, rfl⟩ := List.mem_map.mp hp
  obtain ⟨q0, hq0, rfl⟩ := List.mem_map.mp hq
  obtain ⟨d0, hd0, rfl⟩ := List.mem_map.mp hd
  exact Nat.le_trans (tagCount_removeGroupDesc_le n gname g' d0)
    (h p0 hp0 q0 hq0 d0 hd0)

theorem removeGroup_stripped (n : Nat) (gname : String) (g' : CVal) (tbl : Table)
    (h : strippedTbl n (.s gname) tbl) :
    strippedTbl n (.s gname) (removeGroup n g' tbl) := by
  intro p hp q hq d hd
  unfold removeGroup at hp
  obtain ⟨p0, hp0, rfl⟩ := List.mem_map.mp hp
  obtain ⟨q0, hq0, rfl⟩ := List.mem_map.mp hq
  obtain ⟨d0, hd0, rfl⟩ := List.mem_map.mp hd
  have := Nat.le_trans (tagCount_removeGroupDesc_le n gname g' d0)
    (Nat.le_of_eq (h p0 hp0 q0 hq0 d0 hd0))
  exact Nat.le_zero.mp this

theorem cdel_keys_sublist {α : Type} (n : Nat) (g : CVal) :
    ∀ l : List (CVal × α),
    List.Sublist ((cdel n l g).map Prod.fst) (l.map Prod.fst) := by
  intro l
  induction l with
  | nil => exact List.Sublist.refl _
  | cons kv rest ih =>
      obtain ⟨k, v⟩ := kv
      rw [cdel]
      by_cases h : pyEq n k g = true
      · rw [if_pos h]
        exact (List.Sublist.refl _).cons k
      · rw [if_neg h]
        exact ih.cons₂ k

theorem clookup_none_of_keys {α : Type} {n : Nat} {x : CVal} :
    ∀ {l : List (CVal × α)}, (∀ k ∈ l.map Prod.fst, pyEq n k x = false) →
    clookup n l x = none := by
  intro l
  induction l with
  | nil => intro _; rfl
  | cons kv rest ih =>
      intro h
      obtain ⟨k, v⟩ := kv
      rw [clookup, if_neg (by simp [h k (by simp)])]
      exact ih (fun k' hk' => h k' (by simp [hk']))

theorem clookup_cdel_self {α : Type} {n : Nat} (hn : 0 < n) {g : CVal}
    (hg : hashable g = true) :
    ∀ (l : List (CVal × α)), (l.map Prod.fst).Nodup →
    (∀ k ∈ l.map Prod.fst, hashable k = true) →
    clookup n (cdel n l g) g = none := by
  intro l
  induction l with
  | nil => intro _ _; rfl
  | cons kv rest ih =>
      intro hnd hh
      obtain ⟨k, v⟩ := kv
      rw [cdel]
      by_cases h : pyEq n k g = true
      · rw [if_pos h]
        have hk : k = g := pyEq_atom_eq (hh k (by simp)) h
        subst hk
        apply clookup_none_of_keys
        intro k' hk'
        have hnd2 : (k :: rest.map Prod.fst).Nodup := by
          rw [List.map_cons] at hnd
          exact hnd
        have hk0 : k ∉ rest.map Prod.fst := (List.nodup_cons.mp hnd2).1
        have hne : k' ≠ k := fun he => hk0 (he ▸ hk')
        exact pyEq_atom_false (hh k' (by simp [hk'])) hne
      · rw [if_neg h, clookup, if_neg h]
        have hnd2 : (k :: rest.map Prod.fst).Nodup := by
          rw [List.map_cons] at hnd
          exact hnd
        exact ih (List.nodup_cons.mp hnd2).2
          (fun k' hk' => hh k' (by simp [hk']))

theorem clookup_cdel_ne {α : Type} {n : Nat} {g x : CVal}
    (hg : hashable g = true) (hne2 : g ≠ x) :
    ∀ (l : List (CVal × α)), (∀ k ∈ l.map Prod.fst, hashable k = true) →
    clookup n (cdel n l g) x = clookup n l x := by
  intro l
  induction l with
  | nil => intro _; rfl
  | cons kv rest ih =>
      intro hh
      obtain ⟨k, v⟩ := kv
      rw [cdel]
      by_cases h : pyEq n k g = true
      · rw [if_pos h]
        have hk : k = g := pyEq_atom_eq (hh k (by simp)) h
        subst hk
        rw [clookup, if_neg (by simp [pyEq_atom_false hg hne2])]
      · rw [if_neg h, clookup, clookup,
            ih (fun k' hk' => hh k' (by simp [hk']))]

theorem clookup_cdel_none {α : Type} {n : Nat} {g x : CVal} :
    ∀ (l : List (CVal × α)), clookup n l x = none →
    clookup n (cdel n l g) x = none := by
  intro l
  induction l with
  | nil => intro _; rfl
  | cons kv rest ih =>
      intro h
      obtain ⟨k, v⟩ := kv
      rw [clookup] at h
      by_cases hx : pyEq n k x = true
      · rw [if_pos hx] at h; cases h
      · rw [if_neg hx] at h
        rw [cdel]
        by_cases hg' : pyEq n k g = true
        · rw [if_pos hg']; exact h
        · rw [if_neg hg', clookup, if_neg hx]
          exact ih h

theorem dedupInner_none {n : Nat} {x : CVal} :
    ∀ (l : List CVal) (gq : CVal) (rg : GroupTable) (dl : List CVal) (tbl : Table),
    clookup n rg x = none →
    clookup n (dedupInner n gq l rg dl tbl).1 x = none := by
  intro l gq
  induction l with
  | nil => intro rg dl tbl h; exact h
  | cons y rest ih =>
      intro rg dl tbl h
      rw [dedupInner]
      by_cases hany : dl.any (fun z => pyEq n z y) = true
      · rw [if_pos hany]; exact ih rg dl tbl h
      · rw [if_neg hany]
        cases h1 : clookup n rg gq with
        | none => exact ih rg dl tbl h
        | some m1 =>
            cases h2 : clookup n rg y with
            | none => exact ih rg dl tbl h
            | some m2 =>
                dsimp only
                by_cases hgm : gmapEqB n m1 m2 = true
                · rw [if_pos hgm]
                  exact ih (cdel n rg y) (dl ++ [y]) (removeGroup n y tbl)
                    (clookup_cdel_none rg h)
                · rw [if_neg hgm]; exact ih rg dl tbl h

theorem dedupInner_stripped {n : Nat} (gname : String) :
    ∀ (l : List CVal) (gq : CVal) (rg : GroupTable) (dl : List CVal) (tbl : Table),
    strippedTbl n (.s gname) tbl →
    strippedTbl n (.s gname) (dedupInner n gq l rg dl tbl).2.2 := by
  intro l gq
  induction l with
  | nil => intro rg dl tbl h; exact h
  | cons y rest ih =>
      intro rg dl tbl h
      rw [dedupInner]
      by_cases hany : dl.any (fun z => pyEq n z y) = true
      · rw [if_pos hany]; exact ih rg dl tbl h
      · rw [if_neg hany]
        cases h1 : clookup n rg gq with
        | none => exact ih rg dl tbl h
        | some m1 =>
            cases h2 : clookup n rg y with
            | none => exact ih rg dl tbl h
            | some m2 =>
                dsimp only
                by_cases hgm : gmapEqB n m1 m2 = true
                · rw [if_pos hgm]
                  exact ih (cdel n rg y) (dl ++ [y]) (removeGroup n y tbl)
                    (removeGroup_stripped n gname y tbl h)
                · rw [if_neg hgm]; exact ih rg dl tbl h

theorem dedupInner_keys_sublist {n : Nat} :
    ∀ (l : List CVal) (gq : CVal) (rg : GroupTable) (dl : List CVal) (tbl : Table),
    List.Sublist ((dedupInner n gq l rg dl tbl).1.map Prod.fst)
      (rg.map Prod.fst) := by
  intro l gq
  induction l with
  | nil => intro rg dl tbl; exact List.Sublist.refl _
  | cons y rest ih =>
      intro rg dl tbl
      rw [dedupInner]
      by_cases hany : dl.any (fun z => pyEq n z y) = true
      · rw [if_pos hany]; exact ih rg dl tbl
      · rw [if_neg hany]
        cases h1 : clookup n rg gq with
        | none => exact ih rg dl tbl
        | some m1 =>
            cases h2 : clookup n rg y with
            | none => exact ih rg dl tbl
            | some m2 =>
                dsimp only
                by_cases hgm : gmapEqB n m1 m2 = true
                · rw [if_pos hgm]
                  exact List.Sublist.trans
                    (ih (cdel n rg y) (dl ++ [y]) (removeGroup n y tbl))
                    (cdel_keys_sublist n y rg)
                · rw [if_neg hgm]; exact ih rg dl tbl

theorem dedupInner_keep {n : Nat} {x : CVal} :
    ∀ (l : List CVal) (gq : CVal) (rg : GroupTable) (dl : List CVal) (tbl : Table),
    (∀ y ∈ l, hashable y = true) → (∀ y ∈ l, y ≠ x) →
    (∀ k ∈ rg.map Prod.fst, hashable k = true) →
    clookup n (dedupInner n gq l rg dl tbl).1 x = clookup n rg x := by
  intro l gq
  induction l with
  | nil => intro rg dl tbl _ _ _; rfl
  | cons y rest ih =>
      intro rg dl tbl hh hne hkeys
      rw [dedupInner]
      by_cases hany : dl.any (fun z => pyEq n z y) = true
      · rw [if_pos hany]
        exact ih rg dl tbl (fun z hz => hh z (List.mem_cons_of_mem _ hz))
          (fun z hz => hne z (List.mem_cons_of_mem _ hz)) hkeys
      · rw [if_neg hany]
        cases h1 : clookup n rg gq with
        | none =>
            exact ih rg dl tbl (fun z hz => hh z (List.mem_cons_of_mem _ hz))
              (fun z hz => hne z (List.mem_cons_of_mem _ hz)) hkeys
        | some m1 =>
            cases h2 : clookup n rg y with
            | none =>
                exact ih rg dl tbl (fun z hz => hh z (List.mem_cons_of_mem _ hz))
                  (fun z hz => hne z (List.mem_cons_of_mem _ hz)) hkeys
            | some m2 =>
                dsimp only
                by_cases hgm : gmapEqB n m1 m2 = true
                · rw [if_pos hgm]
                  have hkeys2 : ∀ k ∈ (cdel n rg y).map Prod.fst, hashable k = true :=
                    fun k hk => hkeys k ((cdel_keys_sublist n y rg).subset hk)
                  refine Eq.trans
                    (ih (cdel n rg y) (dl ++ [y]) (removeGroup n y tbl)
                      (fun z hz => hh z (List.mem_cons_of_mem _ hz))
                      (fun z hz => hne z (List.mem_cons_of_mem _ hz)) hkeys2) ?_
                  exact clookup_cdel_ne (hh y (List.mem_cons_self _ _))
                    (hne y (List.mem_cons_self _ _)) rg hkeys
                · rw [if_neg hgm]
                  exact ih rg dl tbl (fun z hz => hh z (List.mem_cons_of_mem _ hz))
                    (fun z hz => hne z (List.mem_cons_of_mem _ hz)) hkeys

theorem dedupOuter_none {n : Nat} {x : CVal} :
    ∀ (l : List CVal) (rg : GroupTable) (dl : List CVal) (tbl : Table),
    clookup n rg x = none →
    clookup n (dedupOuter n l rg dl tbl).1 x = none := by
  intro l
  induction l with
  | nil => intro rg dl tbl h; exact h
  | cons g rest ih =>
      intro rg dl tbl h
      rw [dedupOuter]
      by_cases hany : dl.any (fun z => pyEq n z g) = true
      · rw [if_pos hany]; exact ih rg dl tbl h
      · rw [if_neg hany]
        rcases hI : dedupInner n g rest rg dl tbl with ⟨rg1, dl1, tbl1⟩
        dsimp only
        apply ih
        have hx := dedupInner_none rest g rg dl tbl h
        rw [hI] at hx
        exact hx

theorem dedupOuter_stripped {n : Nat} (gname : String) :
    ∀ (l : List CVal) (rg : GroupTable) (dl : List CVal) (tbl : Table),
    strippedTbl n (.s gname) tbl →
    strippedTbl n (.s gname) (dedupOuter n l rg dl tbl).2 := by
  intro l
  induction l with
  | nil => intro rg dl tbl h; exact h
  | cons g rest ih =>
      intro rg dl tbl h
      rw [dedupOuter]
      by_cases hany : dl.any (fun z => pyEq n z g) = true
      · rw [if_pos hany]; exact ih rg dl tbl h
      · rw [if_neg hany]
        rcases hI : dedupInner n g rest rg dl tbl with ⟨rg1, dl1, tbl1⟩
        dsimp only
        apply ih
        have hx := dedupInner_stripped gname rest g rg dl tbl h
        rw [hI] at hx
        exact hx

theorem dedupOuter_keep {n : Nat} {x : CVal} :
    ∀ (l : List CVal) (rg : GroupTable) (dl : List CVal) (tbl : Table),
    (∀ y ∈ l, hashable y = true) → (∀ y ∈ l, y ≠ x) →
    (∀ k ∈ rg.map Prod.fst, hashable k = true) →
    clookup n (dedupOuter n l rg dl tbl).1 x = clookup n rg x := by
  intro l
  induction l with
  | nil => intro rg dl tbl _ _ _; rfl
  | cons g rest ih =>
      intro rg dl tbl hh hne hkeys
      rw [dedupOuter]
      by_cases hany : dl.any (fun z => pyEq n z g) = true
      · rw [if_pos hany]
        exact ih rg dl tbl (fun z hz => hh z (List.mem_cons_of_mem _ hz))
          (fun z hz => hne z (List.mem_cons_of_mem _ hz)) hkeys
      · rw [if_neg hany]
        rcases hI : dedupInner n g rest rg dl tbl with ⟨rg1, dl1, tbl1⟩
        dsimp only
        have hkeep := @dedupInner_keep n x rest g rg dl tbl
          (fun z hz => hh z (List.mem_cons_of_mem _ hz))
          (fun z hz => hne z (List.mem_cons_of_mem _ hz)) hkeys
        rw [hI] at hkeep
        have hsub := @dedupInner_keys_sublist n rest g rg dl tbl
        rw [hI] at hsub
        have hkeys1 : ∀ k ∈ rg1.map Prod.fst, hashable k = true :=
          fun k hk => hkeys k (hsub.subset hk)
        exact Eq.trans (ih rg1 dl1 tbl1
          (fun z hz => hh z (List.mem_cons_of_mem _ hz))
          (fun z hz => hne z (List.mem_cons_of_mem _ hz)) hkeys1) hkeep

/-- The inner alias scan for a kept group `gq`: an alias `g2` of `gq`
appearing in the scan list is deleted from the group table and stripped
from every descriptor, while `gq` keeps its mapping. -/
theorem dedupInner_deletes {n : Nat} (hn : 0 < n) (gname2 : String) :
    ∀ (l : List CVal) (gq : CVal) (rg : GroupTable) (dl : List CVal) (tbl : Table)
    (m1 m2 : GroupMap),
    (∀ y ∈ l, hashable y = true) → l.Nodup →
    (∀ y ∈ l, y ≠ gq) →
    CVal.s gname2 ∈ l →
    (∀ z ∈ dl, pyEq n z (.s gname2) = false) →
    (rg.map Prod.fst).Nodup →
    (∀ k ∈ rg.map Prod.fst, hashable k = true) →
    clookup n rg gq = some m1 →
    clookup n rg (.s gname2) = some m2 →
    gmapEqB n m1 m2 = true →
    (∀ p ∈ tbl, ∀ q ∈ p.2, ∀ d ∈ q.2, tagCount n (.s gname2) d ≤ 1) →
    clookup n (dedupInner n gq l rg dl tbl).1 gq = some m1 ∧
    clookup n (dedupInner n gq l rg dl tbl).1 (.s gname2) = none ∧
    strippedTbl n (.s gname2) (dedupInner n gq l rg dl tbl).2.2 := by
  intro l gq
  induction l with
  | nil =>
      intro rg dl tbl m1 m2 _ _ _ hmem
      simp at hmem
  | cons y rest ih =>
      intro rg dl tbl m1 m2 hh hnd hneq hmem hdl hKnd hKh hm1 hm2 heq hcnt
      have hhT : ∀ z ∈ rest, hashable z = true :=
        fun z hz => hh z (List.mem_cons_of_mem y hz)
      have hneT : ∀ z ∈ rest, z ≠ gq :=
        fun z hz => hneq z (List.mem_cons_of_mem y hz)
      have hndT : rest.Nodup := (List.nodup_cons.mp hnd).2
      rw [dedupInner]
      by_cases hy : y = CVal.s gname2
      · subst hy
        have hany : (dl.any (fun z => pyEq n z (CVal.s gname2))) = false := by
          rw [List.any_eq_false]
          intro z hz
          simp [hdl z hz]
        rw [if_neg (by simp [hany]), hm1, hm2]
        dsimp only
        rw [if_pos heq]
        have hashg2 : hashable (CVal.s gname2) = true := rfl
        have hneg2 : CVal.s gname2 ≠ gq := hneq _ (List.mem_cons_self _ _)
        have hA : clookup n (cdel n rg (CVal.s gname2)) gq = some m1 := by
          rw [clookup_cdel_ne hashg2 hneg2 rg hKh]
          exact hm1
        have hB : clookup n (cdel n rg (CVal.s gname2)) (CVal.s gname2) = none :=
          clookup_cdel_self hn hashg2 rg hKnd hKh
        have hC : strippedTbl n (CVal.s gname2)
            (removeGroup n (CVal.s gname2) tbl) :=
          removeGroup_strips n gname2 tbl hcnt
        have hkeys2 : ∀ k ∈ (cdel n rg (CVal.s gname2)).map Prod.fst,
            hashable k = true :=
          fun k hk => hKh k ((cdel_keys_sublist n (CVal.s gname2) rg).subset hk)
        refine ⟨?_, ?_, ?_⟩
        · rw [@dedupInner_keep n gq rest gq (cdel n rg (CVal.s gname2))
              (dl ++ [CVal.s gname2]) (removeGroup n (CVal.s gname2) tbl)
              hhT hneT hkeys2]
          exact hA
        · exact dedupInner_none rest gq _ _ _ hB
        · exact dedupInner_stripped gname2 rest gq _ _ _ hC
      · have hmem' : CVal.s gname2 ∈ rest := by
          rcases List.mem_cons.mp hmem with he | hm
          · exact absurd he.symm hy
          · exact hm
        by_cases hany : (dl.any (fun z => pyEq n z y)) = true
        · rw [if_pos hany]
          exact ih rg dl tbl m1 m2 hhT hndT hneT hmem' hdl hKnd hKh hm1 hm2 heq hcnt
        · rw [if_neg hany, hm1]
          cases h2 : clookup n rg y with
          | none =>
              exact ih rg dl tbl m1 m2 hhT hndT hneT hmem' hdl hKnd hKh
                hm1 hm2 heq hcnt
          | some my =>
              dsimp only
              by_cases hgm : gmapEqB n m1 my = true
              · rw [if_pos hgm]
                have hashy : hashable y = true := hh y (List.mem_cons_self _ _)
                have hdl2 : ∀ z ∈ dl ++ [y], pyEq n z (.s gname2) = false := by
                  intro z hz
                  rcases List.mem_append.mp hz with hz1 | hz2
                  · exact hdl z hz1
                  · rw [List.mem_singleton.mp hz2]
                    exact pyEq_atom_false hashy hy
                have hKnd2 : ((cdel n rg y).map Prod.fst).Nodup :=
                  (cdel_keys_sublist n y rg).nodup hKnd
                have hkeys2 : ∀ k ∈ (cdel n rg y).map Prod.fst, hashable k = true :=
                  fun k hk => hKh k ((cdel_keys_sublist n y rg).subset hk)
                have hm1' : clookup n (cdel n rg y) gq = some m1 := by
                  rw [clookup_cdel_ne hashy (hneq y (List.mem_cons_self _ _)) rg hKh]
                  exact hm1
                have hm2' : clookup n (cdel n rg y) (.s gname2) = some m2 := by
                  rw [clookup_cdel_ne hashy hy rg hKh]
                  exact hm2
                exact ih (cdel n rg y) (dl ++ [y]) (removeGroup n y tbl) m1 m2
                  hhT hndT hneT hmem' hdl2 hKnd2 hkeys2 hm1' hm2' heq
                  (removeGroup_mono n gname2 y tbl hcnt)
              · rw [if_neg hgm]
                exact ih rg dl tbl m1 m2 hhT hndT hneT hmem' hdl hKnd hKh
                  hm1 hm2 heq hcnt

/-- C6: alias-group collapse (data_handler.py:773-784 with _removeGroup,
786-799).  Run the duplicate-elimination scan of `_getGroups` over the key
snapshot of the reverse group table (keys pairwise distinct hashable
values, as a Python dict guarantees).  If the insertion-first group `g1`
and a later group name `gname2` resolve to Python-`==`-equal mappings,
then in the result `g1` is kept with its mapping intact while `gname2` is
deleted from the group table and stripped from every descriptor's group
tag (a scalar tag becomes the bare `True` marker): the discarded name
appears nowhere in the final group table and on no descriptor.  The
count hypothesis — no descriptor carries the same name twice — holds on
every real path because the reverse-table construction raises on a
duplicate (group, format, object_type) triple. -/
theorem C6_alias_collapse (n : Nat) (hn : 0 < n) (rg : GroupTable) (tbl : Table)
    (g1 : CVal) (rest : List CVal) (gname2 : String) (m1 m2 : GroupMap)
    (hsnap : rg.map Prod.fst = g1 :: rest)
    (hhash : ∀ y ∈ g1 :: rest, hashable y = true)
    (hnd : (g1 :: rest).Nodup)
    (hg1 : clookup n rg g1 = some m1)
    (hmem2 : CVal.s gname2 ∈ rest)
    (hg2 : clookup n rg (.s gname2) = some m2)
    (heq : gmapEqB n m1 m2 = true)
    (hcnt : ∀ p ∈ tbl, ∀ q ∈ p.2, ∀ d ∈ q.2, tagCount n (.s gname2) d ≤ 1) :
    clookup n (dedupOuter n (g1 :: rest) rg [] tbl).1 g1 = some m1 ∧
    clookup n (dedupOuter n (g1 :: rest) rg [] tbl).1 (.s gname2) = none ∧
    strippedTbl n (.s gname2) (dedupOuter n (g1 :: rest) rg [] tbl).2 := by
  have hndc := List.nodup_cons.mp hnd
  have hhT : ∀ y ∈ rest, hashable y = true :=
    fun y hy => hhash y (List.mem_cons_of_mem _ hy)
  have hneT : ∀ y ∈ rest, y ≠ g1 := fun y hy he => hndc.1 (he ▸ hy)
  have hKnd : (rg.map Prod.fst).Nodup := by rw [hsnap]; exact hnd
  have hKh : ∀ k ∈ rg.map Prod.fst, hashable k = true := by
    rw [hsnap]; exact hhash
  rw [dedupOuter, if_neg (by simp)]
  rcases hI : dedupInner n g1 rest rg [] tbl with ⟨rg1, dl1, tbl1⟩
  dsimp only
  have hdel := dedupInner_deletes hn gname2 rest g1 rg [] tbl m1 m2
    hhT hndc.2 hneT hmem2 (fun z hz => absurd hz (List.not_mem_nil z))
    hKnd hKh hg1 hg2 heq hcnt
  rw [hI] at hdel
  obtain ⟨hd1, hd2, hd3⟩ := hdel
  have hsub := @dedupInner_keys_sublist n rest g1 rg [] tbl
  rw [hI] at hsub
  have hkeys1 : ∀ k ∈ rg1.map Prod.fst, hashable k = true :=
    fun k hk => hKh k (hsub.subset hk)
  refine ⟨?_, ?_, ?_⟩
  · rw [@dedupOuter_keep n g1 rest rg1 dl1 tbl1 hhT hneT hkeys1]
    exact hd1
  · exact dedupOuter_none rest rg1 dl1 tbl1 hd2
  · exact dedupOuter_stripped gname2 rest rg1 dl1 tbl1 hd3

/-- Witness for C6: groups `gA` (first) and `gB` alias the same
single-entry mapping; the scan keeps `gA`, deletes `gB`, and strips `gB`
from the descriptor's tag list. -/
theorem C6_alias_collapse_witness :
    clookup 4 (dedupOuter 4 [CVal.s "gA", CVal.s "gB"]
        [(CVal.s "gA", [("single-CCD-catalog", [(CVal.s "galaxy", 0)])]),
         (CVal.s "gB", [("single-CCD-catalog", [(CVal.s "galaxy", 0)])])] []
        [("single-CCD-catalog", [(CVal.s "galaxy",
          [[("name", CVal.s "a.fits"),
            ("group", CVal.list [CVal.s "gA", CVal.s "gB"])]])])]).1
      (CVal.s "gA") = some [("single-CCD-catalog", [(CVal.s "galaxy", 0)])] ∧
    clookup 4 (dedupOuter 4 [CVal.s "gA", CVal.s "gB"]
        [(CVal.s "gA", [("single-CCD-catalog", [(CVal.s "galaxy", 0)])]),
         (CVal.s "gB", [("single-CCD-catalog", [(CVal.s "galaxy", 0)])])] []
        [("single-CCD-catalog", [(CVal.s "galaxy",
          [[("name", CVal.s "a.fits"),
            ("group", CVal.list [CVal.s "gA", CVal.s "gB"])]])])]).1
      (CVal.s "gB") = none ∧
    strippedTbl 4 (CVal.s "gB") (dedupOuter 4 [CVal.s "gA", CVal.s "gB"]
        [(CVal.s "gA", [("single-CCD-catalog", [(CVal.s "galaxy", 0)])]),
         (CVal.s "gB", [("single-CCD-catalog", [(CVal.s "galaxy", 0)])])] []
        [("single-CCD-catalog", [(CVal.s "galaxy",
          [[("name", CVal.s "a.fits"),
            ("group", CVal.list [CVal.s "gA", CVal.s "gB"])]])])]).2 :=
  C6_alias_collapse 4 (by decide)
    [(CVal.s "gA", [("single-CCD-catalog", [(CVal.s "galaxy", 0)])]),
     (CVal.s "gB", [("single-CCD-catalog", [(CVal.s "galaxy", 0)])])]
    [("single-CCD-catalog", [(CVal.s "galaxy",
      [[("name", CVal.s "a.fits"),
        ("group", CVal.list [CVal.s "gA", CVal.s "gB"])]])])]
    (CVal.s "gA") [CVal.s "gB"] "gB"
    [("single-CCD-catalog", [(CVal.s "galaxy", 0)])]
    [("single-CCD-catalog", [(CVal.s "galaxy", 0)])]
    rfl (by decide) (by simp) rfl (List.mem_singleton.mpr rfl) rfl rfl
    (by decide)

/-- C10: for every constructed handler, `listObjects` called with a format
string not present in the file table returns an empty list rather than
raising, and `listData` called with a single object type returns an empty
list whenever the format or the object type is absent from the file
table. -/
theorem C10_query_total_on_unknown (oracle : CVal → List CVal) (n : Nat)
    (files : Table) (ot fmt : String) :
    (alookup files fmt = none →
      listObjects files fmt = [] ∧ listData oracle n files ot fmt = .ok []) ∧
    (∀ objmap, alookup files fmt = some objmap →
      clookup n objmap (.s ot) = none → listData oracle n files ot fmt = .ok []) := by
  refine ⟨fun h => ⟨?_, ?_⟩, fun objmap h1 h2 => ?_⟩
  · simp [listObjects, h]
  · simp [listData, h]
  · simp [listData, h1, h2]

/-- Witness for C10 on a concrete one-format table: an unknown format and
an unknown object type both yield empty query results. -/
theorem C10_query_total_on_unknown_witness :
    listObjects [("single-CCD-catalog", [(.s "star", [])])] "coadd-CCD-catalog" = [] ∧
    listData (fun _ => []) 5 [("single-CCD-catalog", [(.s "star", [])])] "galaxy"
      "single-CCD-catalog" = .ok [] :=
  ⟨((C10_query_total_on_unknown (fun _ => []) 5
        [("single-CCD-catalog", [(.s "star", [])])] "galaxy" "coadd-CCD-catalog").1
      (by rfl)).1,
   (C10_query_total_on_unknown (fun _ => []) 5
        [("single-CCD-catalog", [(.s "star", [])])] "galaxy" "single-CCD-catalog").2
      [(.s "star", [])] (by rfl) (by rfl)⟩

end Stile
